import Mathlib

/-!
Verification of the dcstop repository: shallow embedding of
`internal/devcontainer` (finder, parser), `internal/docker` (compose
orchestration, project naming) and the dispatch in `cmd/root.go`,
together with proofs of the specification claims.

Paths are Unix paths; Go's `path/filepath` (Dir, Base, Clean, Join,
IsAbs) is embedded over `List Char`.
-/

set_option maxHeartbeats 1000000

namespace Dcstop

namespace GoPath

/-- Is the path rooted (starts with a slash)? Go `filepath.IsAbs` on Unix. -/
def isRooted : List Char → Bool
  | '/' :: _ => true
  | _ => false

/-- Split a character list on slashes (Go `strings.Split(path, "/")`). -/
def splitSlash : List Char → List (List Char)
  | [] => [[]]
  | '/' :: rest => [] :: splitSlash rest
  | c :: rest =>
    match splitSlash rest with
    | [] => [[c]]
    | g :: gs => (c :: g) :: gs

/-- Join components with single slashes (Go `strings.Join(elems, "/")`). -/
def joinSlash : List (List Char) → List Char
  | [] => []
  | [x] => x
  | x :: xs => x ++ '/' :: joinSlash xs

/-- One component step of Go `filepath.Clean`'s element processing:
empty and `.` elements are dropped, `..` pops the last element (or is kept
when the path is relative and nothing can be popped; dropped at the root
of a rooted path).  The stack is kept in reverse order. -/
def cleanStep (rooted : Bool) (stack : List (List Char)) (comp : List Char) : List (List Char) :=
  if comp = [] ∨ comp = ['.'] then stack
  else if comp = ['.', '.'] then
    match stack with
    | [] => if rooted then [] else [['.', '.']]
    | top :: rest => if top = ['.', '.'] then comp :: top :: rest else rest
  else comp :: stack

/-- Go `filepath.Clean` (Unix), via the standard lexical component-stack
algorithm equivalent to the byte-level loop in `path/filepath`. -/
def cleanList (l : List Char) : List Char :=
  match l with
  | [] => ['.']
  | _ =>
    let rooted := isRooted l
    let stack := (splitSlash l).foldl (cleanStep rooted) []
    let body := joinSlash stack.reverse
    if rooted then '/' :: body
    else if body = [] then ['.'] else body

/-- Go `filepath.Base` (Unix): empty path gives ".", trailing slashes are
dropped, the last element is returned, an all-slash path gives "/". -/
def baseList (l : List Char) : List Char :=
  match l with
  | [] => ['.']
  | _ =>
    let r := l.reverse.dropWhile (fun c => c == '/')
    let name := r.takeWhile (fun c => c != '/')
    if name = [] then ['/'] else name.reverse

/-- Go `filepath.Dir` (Unix): everything up to and including the final
slash, cleaned; "." when the path contains no slash. -/
def dirList (l : List Char) : List Char :=
  cleanList ((l.reverse.dropWhile (fun c => c != '/')).reverse)

def Clean (s : String) : String := ⟨cleanList s.data⟩

def Base (s : String) : String := ⟨baseList s.data⟩

def Dir (s : String) : String := ⟨dirList s.data⟩

def IsAbs (s : String) : Bool := isRooted s.data

/-- Go `filepath.Join`: skip leading empty elements, join the rest with
slashes and clean the result; all-empty input gives "". -/
def JoinList : List String → String
  | [] => ""
  | e :: rest => if e = "" then JoinList rest else ⟨cleanList (joinSlash ((e :: rest).map String.data))⟩

def Join2 (a b : String) : String := JoinList [a, b]

def Join3 (a b c : String) : String := JoinList [a, b, c]

/-- Go `strings.ToLower`, restricted to its ASCII behaviour (`'A'..'Z'`
map to `'a'..'z'`; everything else is unchanged).  The repository only
lower-cases path elements, and every claim input is ASCII. -/
def toLowerChar (c : Char) : Char :=
  if 'A' ≤ c ∧ c ≤ 'Z' then Char.ofNat (c.toNat + 32) else c

def ToLower (s : String) : String := ⟨s.data.map toLowerChar⟩

theorem charOfNat_toNat (n : Nat) (h1 : 97 ≤ n) (h2 : n ≤ 122) :
    (Char.ofNat n).toNat = n := by
  have hv : n.isValidChar := Or.inl (by omega)
  simp [Char.ofNat, hv, Char.ofNatAux, Char.toNat, UInt32.toNat, BitVec.toNat_ofNatLt]

theorem toLowerChar_idem (c : Char) : toLowerChar (toLowerChar c) = toLowerChar c := by
  by_cases h : 'A' ≤ c ∧ c ≤ 'Z'
  · have h65 : 65 ≤ c.toNat := h.1
    have h90 : c.toNat ≤ 90 := h.2
    have hval : (Char.ofNat (c.toNat + 32)).toNat = c.toNat + 32 :=
      charOfNat_toNat _ (by omega) (by omega)
    have hne : ¬ ('A' ≤ Char.ofNat (c.toNat + 32) ∧ Char.ofNat (c.toNat + 32) ≤ 'Z') := by
      intro h2
      have : (Char.ofNat (c.toNat + 32)).toNat ≤ 90 := h2.2
      omega
    simp only [toLowerChar, if_pos h, if_neg hne]
  · simp only [toLowerChar, if_neg h]

theorem map_toLowerChar_idem (l : List Char) :
    (l.map toLowerChar).map toLowerChar = l.map toLowerChar := by
  induction l with
  | nil => rfl
  | cons c rest ih => simp only [List.map_cons, toLowerChar_idem, ih]

theorem ToLower_ToLower (s : String) : ToLower (ToLower s) = ToLower s := by
  cases s with
  | mk data => simp only [ToLower, map_toLowerChar_idem]

theorem ToLower_append (a b : String) : ToLower (a ++ b) = ToLower a ++ ToLower b := by
  apply String.ext
  simp only [ToLower, String.data_append, List.map_append]

end GoPath

open GoPath

/-- `DeriveDevcontainerProjectName` from `internal/docker/compose.go`:
flat layout `<root>/.devcontainer/devcontainer.json` yields
`lower(base root) ++ "_devcontainer"`; multi layout
`<root>/.devcontainer/<sub>/devcontainer.json` yields `lower(sub)`. -/
def DeriveDevcontainerProjectName (configPath : String) : String :=
  let configDir := Dir configPath
  let configDirName := Base configDir
  if configDirName = ".devcontainer" then
    let parentDir := Dir configDir
    ToLower (Base parentDir) ++ "_devcontainer"
  else
    ToLower configDirName

/-- C1: `DeriveDevcontainerProjectName` returns, for every path, the
lowercased parent-of-`.devcontainer` base name suffixed with
`"_devcontainer"` in the flat layout and the lowercased config-directory
base name otherwise; the two spec examples evaluate as stated and the
result is always lowercase (a fixed point of `ToLower`). -/
theorem C1_derive_definition_path :
    (∀ p : String,
      DeriveDevcontainerProjectName p =
        if Base (Dir p) = ".devcontainer"
        then ToLower (Base (Dir (Dir p))) ++ "_devcontainer"
        else ToLower (Base (Dir p)))
    ∧ DeriveDevcontainerProjectName "/home/u/MyProj/.devcontainer/devcontainer.json"
        = "myproj_devcontainer"
    ∧ DeriveDevcontainerProjectName "/home/u/MyProj/.devcontainer/App1/devcontainer.json"
        = "app1"
    ∧ ∀ p : String,
        ToLower (DeriveDevcontainerProjectName p) = DeriveDevcontainerProjectName p := by
  refine ⟨fun p => rfl, by decide, by decide, fun p => ?_⟩
  unfold DeriveDevcontainerProjectName
  by_cases h : Base (Dir p) = ".devcontainer"
  · simp only [if_pos h, ToLower_append, ToLower_ToLower]
    have : ToLower "_devcontainer" = "_devcontainer" := by decide
    rw [this]
  · simp only [if_neg h, ToLower_ToLower]

/-- Modelled from the spec: the Go function `DeriveProjectNameFromComposeFile`
is not among the provided sources (only its tests in the docker package are).
Spec §4.3 `deriveFromComposeFilePath`: if the compose file's directory is the
reserved directory, use `lower(base of its parent) ++ "_devcontainer"`; if that
directory sits directly under the reserved directory, use its lowercased base
name; otherwise (outside the reserved directory) also use its lowercased base
name. -/
def DeriveProjectNameFromComposeFile (composeFilePath : String) : String :=
  let dir := Dir composeFilePath
  if Base dir = ".devcontainer" then
    ToLower (Base (Dir dir)) ++ "_devcontainer"
  else if Base (Dir dir) = ".devcontainer" then
    ToLower (Base dir)
  else
    ToLower (Base dir)

/-- Modelled from the spec: `DeriveProjectNameFromComposeFiles` (tests only in
the provided sources).  Spec §4.3 `deriveForDefinition`: an empty sequence
yields the empty string, otherwise the first compose-file path drives the
derivation. -/
def DeriveProjectNameFromComposeFiles (composeFiles : List String) : String :=
  match composeFiles with
  | [] => ""
  | f :: _ => DeriveProjectNameFromComposeFile f

/-- C5: `deriveFromComposeFilePath` returns the `…_devcontainer` form when the
compose file sits in the reserved directory and the lowercased parent-directory
base name otherwise (the one-level-under-reserved case and the
outside-reserved case coincide); the three spec examples evaluate as stated
and only the first compose-file path of a sequence drives the derivation. -/
theorem C5_derive_compose_file_path :
    (∀ p : String,
      DeriveProjectNameFromComposeFile p =
        if Base (Dir p) = ".devcontainer"
        then ToLower (Base (Dir (Dir p))) ++ "_devcontainer"
        else ToLower (Base (Dir p)))
    ∧ DeriveProjectNameFromComposeFile "/home/user/myproject/.devcontainer/docker-compose.yml"
        = "myproject_devcontainer"
    ∧ DeriveProjectNameFromComposeFile "/home/user/myproject/.devcontainer/app1/docker-compose.yml"
        = "app1"
    ∧ DeriveProjectNameFromComposeFile "/home/user/myproject/docker-compose.yml"
        = "myproject"
    ∧ (∀ (f : String) (rest : List String),
        DeriveProjectNameFromComposeFiles (f :: rest) = DeriveProjectNameFromComposeFile f)
    ∧ DeriveProjectNameFromComposeFiles [] = "" := by
  refine ⟨fun p => ?_, by decide, by decide, by decide, fun f rest => rfl, rfl⟩
  unfold DeriveProjectNameFromComposeFile
  by_cases h : Base (Dir p) = ".devcontainer"
  · simp only [if_pos h]
  · simp only [if_neg h]
    by_cases h2 : Base (Dir (Dir p)) = ".devcontainer" <;> simp only [if_pos, if_neg, h2, ite_self]

/-- `Config` from `internal/devcontainer/parser.go`. -/
structure Config where
  Image : String
  DockerComposeFile : List String
  Service : String
  ConfigPath : String
deriving DecidableEq, Repr

/-- `Config.IsImageBased`: a non-empty image and no compose files. -/
def Config.IsImageBased (c : Config) : Bool :=
  c.Image != "" && c.DockerComposeFile.length == 0

/-- `Config.IsComposeBased`: at least one compose file. -/
def Config.IsComposeBased (c : Config) : Bool :=
  decide (c.DockerComposeFile.length > 0)

/-- The two orchestration paths of `runStop` in `cmd/root.go`. -/
inductive Route where
  | compose
  | image
deriving DecidableEq, Repr

/-- The dispatch in `cmd/root.go` (`runStop`): compose-based configs go to
`handleCompose`, everything else to `handleImage`. -/
def dispatchRoute (c : Config) : Route :=
  if c.IsComposeBased then Route.compose else Route.image

/-- C10: the two classification predicates are characterised by the fields,
are never both true, a config with both an image and compose files is routed
to the compose path, and a config with both fields empty satisfies neither
predicate and is routed to the image path. -/
theorem C10_classification_dispatch :
    (∀ c : Config, c.IsComposeBased = true ↔ c.DockerComposeFile ≠ [])
    ∧ (∀ c : Config, c.IsImageBased = true ↔ c.Image ≠ "" ∧ c.DockerComposeFile = [])
    ∧ (∀ c : Config, ¬ (c.IsImageBased = true ∧ c.IsComposeBased = true))
    ∧ (∀ c : Config, c.Image ≠ "" → c.DockerComposeFile ≠ [] → dispatchRoute c = Route.compose)
    ∧ (∀ c : Config, c.Image = "" → c.DockerComposeFile = [] →
        c.IsImageBased = false ∧ c.IsComposeBased = false ∧ dispatchRoute c = Route.image) := by
  have hcb : ∀ c : Config, c.IsComposeBased = true ↔ c.DockerComposeFile ≠ [] := by
    intro c
    simp [Config.IsComposeBased, List.length_pos, ← List.isEmpty_iff, List.isEmpty_iff]
  have hib : ∀ c : Config, c.IsImageBased = true ↔ c.Image ≠ "" ∧ c.DockerComposeFile = [] := by
    intro c
    simp [Config.IsImageBased, List.length_eq_zero]
  refine ⟨hcb, hib, fun c h => ?_, fun c h1 h2 => ?_, fun c h1 h2 => ?_⟩
  · exact ((hcb c).mp h.2) ((hib c).mp h.1).2
  · have : c.IsComposeBased = true := (hcb c).mpr h2
    simp [dispatchRoute, this]
  · have h3 : c.IsComposeBased = false := by
      cases hv : c.IsComposeBased
      · rfl
      · exact absurd ((hcb c).mp hv) (by simp [h2])
    have h4 : c.IsImageBased = false := by
      cases hv : c.IsImageBased
      · rfl
      · exact absurd ((hib c).mp hv).1 (by simp [h1])
    exact ⟨h4, h3, by simp [dispatchRoute, h3]⟩

/-- C10 witness: a config with both image and compose files goes to the
compose route; a fully empty config satisfies neither predicate and goes to
the image route. -/
theorem C10_classification_dispatch_witness :
    dispatchRoute ⟨"golang:1.21", ["docker-compose.yml"], "app", "/p/devcontainer.json"⟩
      = Route.compose
    ∧ (Config.IsImageBased ⟨"", [], "", "/p/devcontainer.json"⟩ = false
       ∧ Config.IsComposeBased ⟨"", [], "", "/p/devcontainer.json"⟩ = false
       ∧ dispatchRoute ⟨"", [], "", "/p/devcontainer.json"⟩ = Route.image) :=
  ⟨C10_classification_dispatch.2.2.2.1 _ (by decide) (by decide),
   C10_classification_dispatch.2.2.2.2 _ rfl rfl⟩

/-- `Config.GetComposeFiles` from `internal/devcontainer/parser.go`: nil for
an empty sequence; otherwise each relative path is joined to the definition
file's own directory and cleaned, absolute paths are kept as given. -/
def Config.GetComposeFiles (c : Config) : List String :=
  if c.DockerComposeFile.length = 0 then []
  else
    let configDir := Dir c.ConfigPath
    c.DockerComposeFile.map (fun f =>
      if IsAbs f then f else Clean (Join2 configDir f))

/-- C9: `GetComposeFiles` maps each compose-file entry in order — absolute
paths unchanged, relative paths resolved against the definition file's own
directory (`Dir c.ConfigPath`) via a cleaned join — so the output has the
same length and order as the input sequence; the concrete example mirrors the
repository's parser test (`../docker-compose.yml` resolves to the workspace
root, a sibling name to the `.devcontainer` directory itself). -/
theorem C9_get_compose_files :
    (∀ c : Config,
      c.GetComposeFiles =
        c.DockerComposeFile.map (fun f =>
          if IsAbs f then f else Clean (Join2 (Dir c.ConfigPath) f)))
    ∧ (∀ c : Config, c.GetComposeFiles.length = c.DockerComposeFile.length)
    ∧ Config.GetComposeFiles
        ⟨"", ["../docker-compose.yml", "docker-compose.dev.yml", "/abs/compose.yml"], "app",
         "/tmp/proj/.devcontainer/devcontainer.json"⟩
        = ["/tmp/proj/docker-compose.yml", "/tmp/proj/.devcontainer/docker-compose.dev.yml",
           "/abs/compose.yml"] := by
  have h1 : ∀ c : Config,
      c.GetComposeFiles =
        c.DockerComposeFile.map (fun f =>
          if IsAbs f then f else Clean (Join2 (Dir c.ConfigPath) f)) := by
    intro c
    unfold Config.GetComposeFiles
    cases hl : c.DockerComposeFile with
    | nil => simp [hl]
    | cons a as => simp [hl]
  refine ⟨h1, fun c => ?_, by decide⟩
  rw [h1 c, List.length_map]

/-- `ContainerInfo` from `internal/docker/client.go`. -/
structure ContainerInfo where
  ID : String
  Names : List String
  Labels : List (String × String)
  State : String
deriving DecidableEq, Repr

/-- `NetworkInfo` from `internal/docker/compose.go`. -/
structure NetworkInfo where
  Id : String
  Name : String
deriving DecidableEq, Repr

/-- `VolumeInfo` from `internal/docker/compose.go`. -/
structure VolumeInfo where
  Name : String
  Labels : List (String × String)
deriving DecidableEq, Repr

/-- `ContainerListOptions` from `internal/docker/client.go`. -/
structure ContainerListOptions where
  All : Bool
  LabelFilter : String
deriving DecidableEq, Repr

/-- One remote call issued through the `ComposeClient` interface; traces of
these model the sequence of Docker API requests. -/
inductive Call where
  | containerList (options : ContainerListOptions)
  | containerStop (id : String) (timeout : Option Nat)
  | containerRemove (id : String) (force : Bool)
  | networkList (labelFilter : String)
  | networkRemove (id : String)
  | volumeList (labelFilter : String)
  | volumeRemove (name : String) (force : Bool)
deriving DecidableEq, Repr

/-- Is the call one of the two volume operations? -/
def Call.isVolumeCall : Call → Bool
  | .volumeList _ => true
  | .volumeRemove _ _ => true
  | _ => false

/-- The `ComposeClient` capability interface of `internal/docker/compose.go`,
modelled as a deterministic response function per remote operation. -/
structure ComposeClient where
  containerList : ContainerListOptions → Except String (List ContainerInfo)
  containerStop : String → Option Nat → Except String Unit
  containerRemove : String → Bool → Except String Unit
  networkList : String → Except String (List NetworkInfo)
  networkRemove : String → Except String Unit
  volumeList : String → Except String (List VolumeInfo)
  volumeRemove : String → Bool → Except String Unit

/-- The label filter `com.docker.compose.project=<name>` used by all three
list operations in `ComposeOps`. -/
def projectLabel (projectName : String) : String :=
  "com.docker.compose.project=" ++ projectName

def findErrMsg (e : String) : String :=
  "failed to find compose containers: " ++ e

def stopErrMsg (id e : String) : String :=
  "failed to stop container " ++ id ++ ": " ++ e

def removeErrMsg (id e : String) : String :=
  "failed to remove container " ++ id ++ ": " ++ e

def networkListErrMsg (e : String) : String :=
  "failed to list networks: " ++ e

def networkRemoveErrMsg (name e : String) : String :=
  "failed to remove network " ++ name ++ ": " ++ e

def volumeListErrMsg (e : String) : String :=
  "failed to list volumes: " ++ e

def volumeRemoveErrMsg (name e : String) : String :=
  "failed to remove volume " ++ name ++ ": " ++ e

/-- The container-stop loop shared by `StopComposeProject` and
`DownComposeProject`: stop each container in order, abort on the first
failure wrapping the container id into the error.  Returns the calls issued
and the outcome. -/
def stopContainersLoop (cl : ComposeClient) : List ContainerInfo → List Call × Except String Unit
  | [] => ([], .ok ())
  | c :: rest =>
    match cl.containerStop c.ID none with
    | .error e => ([Call.containerStop c.ID none], .error (stopErrMsg c.ID e))
    | .ok _ =>
      let r := stopContainersLoop cl rest
      (Call.containerStop c.ID none :: r.1, r.2)

/-- The container-remove loop of `DownComposeProject` (`force = true`). -/
def removeContainersLoop (cl : ComposeClient) : List ContainerInfo → List Call × Except String Unit
  | [] => ([], .ok ())
  | c :: rest =>
    match cl.containerRemove c.ID true with
    | .error e => ([Call.containerRemove c.ID true], .error (removeErrMsg c.ID e))
    | .ok _ =>
      let r := removeContainersLoop cl rest
      (Call.containerRemove c.ID true :: r.1, r.2)

/-- The network-remove loop of `DownComposeProject` (removal is by network
id; the error message names the network's display name, as in the source). -/
def removeNetworksLoop (cl : ComposeClient) : List NetworkInfo → List Call × Except String Unit
  | [] => ([], .ok ())
  | n :: rest =>
    match cl.networkRemove n.Id with
    | .error e => ([Call.networkRemove n.Id], .error (networkRemoveErrMsg n.Name e))
    | .ok _ =>
      let r := removeNetworksLoop cl rest
      (Call.networkRemove n.Id :: r.1, r.2)

/-- The volume-remove loop of `DownComposeProject` (`force = true`). -/
def removeVolumesLoop (cl : ComposeClient) : List VolumeInfo → List Call × Except String Unit
  | [] => ([], .ok ())
  | v :: rest =>
    match cl.volumeRemove v.Name true with
    | .error e => ([Call.volumeRemove v.Name true], .error (volumeRemoveErrMsg v.Name e))
    | .ok _ =>
      let r := removeVolumesLoop cl rest
      (Call.volumeRemove v.Name true :: r.1, r.2)

/-- `FindComposeContainers`: list all containers carrying the project label. -/
def findComposeOpts (projectName : String) : ContainerListOptions :=
  ⟨true, projectLabel projectName⟩

/-- `StopComposeProject` from `internal/docker/compose.go`, with its call
trace: find the project's containers, then stop each in order. -/
def StopComposeProject (cl : ComposeClient) (projectName : String) :
    List Call × Except String Unit :=
  let opts := findComposeOpts projectName
  match cl.containerList opts with
  | .error e => ([Call.containerList opts], .error (findErrMsg e))
  | .ok containers =>
    let r := stopContainersLoop cl containers
    (Call.containerList opts :: r.1, r.2)

/-- `DownComposeProject` from `internal/docker/compose.go`, with its call
trace: list containers, stop each, remove each (force), list networks by the
project label, remove each, and — only when `removeVolumes` — list volumes by
the project label and remove each (force).  Every failure returns
immediately. -/
def DownComposeProject (cl : ComposeClient) (projectName : String) (removeVolumes : Bool) :
    List Call × Except String Unit :=
  let opts := findComposeOpts projectName
  match cl.containerList opts with
  | .error e => ([Call.containerList opts], .error (findErrMsg e))
  | .ok containers =>
    let s := stopContainersLoop cl containers
    match s.2 with
    | .error e => (Call.containerList opts :: s.1, .error e)
    | .ok _ =>
      let rm := removeContainersLoop cl containers
      match rm.2 with
      | .error e => (Call.containerList opts :: s.1 ++ rm.1, .error e)
      | .ok _ =>
        let lbl := projectLabel projectName
        match cl.networkList lbl with
        | .error e =>
          (Call.containerList opts :: s.1 ++ rm.1 ++ [Call.networkList lbl],
           .error (networkListErrMsg e))
        | .ok networks =>
          let nr := removeNetworksLoop cl networks
          match nr.2 with
          | .error e =>
            (Call.containerList opts :: s.1 ++ rm.1 ++ [Call.networkList lbl] ++ nr.1, .error e)
          | .ok _ =>
            if removeVolumes then
              match cl.volumeList lbl with
              | .error e =>
                (Call.containerList opts :: s.1 ++ rm.1 ++ [Call.networkList lbl] ++ nr.1
                  ++ [Call.volumeList lbl], .error (volumeListErrMsg e))
              | .ok volumes =>
                let vr := removeVolumesLoop cl volumes
                (Call.containerList opts :: s.1 ++ rm.1 ++ [Call.networkList lbl] ++ nr.1
                  ++ [Call.volumeList lbl] ++ vr.1, vr.2)
            else
              (Call.containerList opts :: s.1 ++ rm.1 ++ [Call.networkList lbl] ++ nr.1, .ok ())

theorem stopContainersLoop_ok (cl : ComposeClient) (cs : List ContainerInfo)
    (h : ∀ c ∈ cs, cl.containerStop c.ID none = .ok ()) :
    stopContainersLoop cl cs = (cs.map fun c => Call.containerStop c.ID none, .ok ()) := by
  induction cs with
  | nil => rfl
  | cons c rest ih =>
    have hc := h c (by simp)
    have hrest : ∀ x ∈ rest, cl.containerStop x.ID none = .ok () :=
      fun x hx => h x (by simp [hx])
    simp [stopContainersLoop, hc, ih hrest]

theorem stopContainersLoop_fail (cl : ComposeClient) (pre : List ContainerInfo)
    (c : ContainerInfo) (post : List ContainerInfo) (e : String)
    (hpre : ∀ x ∈ pre, cl.containerStop x.ID none = .ok ())
    (hc : cl.containerStop c.ID none = .error e) :
    stopContainersLoop cl (pre ++ c :: post) =
      ((pre.map fun x => Call.containerStop x.ID none) ++ [Call.containerStop c.ID none],
       .error (stopErrMsg c.ID e)) := by
  induction pre with
  | nil => simp [stopContainersLoop, hc]
  | cons a as ih =>
    have ha := hpre a (by simp)
    have has : ∀ x ∈ as, cl.containerStop x.ID none = .ok () :=
      fun x hx => hpre x (by simp [hx])
    simp [stopContainersLoop, ha, ih has]

theorem removeContainersLoop_ok (cl : ComposeClient) (cs : List ContainerInfo)
    (h : ∀ c ∈ cs, cl.containerRemove c.ID true = .ok ()) :
    removeContainersLoop cl cs = (cs.map fun c => Call.containerRemove c.ID true, .ok ()) := by
  induction cs with
  | nil => rfl
  | cons c rest ih =>
    have hc := h c (by simp)
    have hrest : ∀ x ∈ rest, cl.containerRemove x.ID true = .ok () :=
      fun x hx => h x (by simp [hx])
    simp [removeContainersLoop, hc, ih hrest]

theorem removeContainersLoop_fail (cl : ComposeClient) (pre : List ContainerInfo)
    (c : ContainerInfo) (post : List ContainerInfo) (e : String)
    (hpre : ∀ x ∈ pre, cl.containerRemove x.ID true = .ok ())
    (hc : cl.containerRemove c.ID true = .error e) :
    removeContainersLoop cl (pre ++ c :: post) =
      ((pre.map fun x => Call.containerRemove x.ID true) ++ [Call.containerRemove c.ID true],
       .error (removeErrMsg c.ID e)) := by
  induction pre with
  | nil => simp [removeContainersLoop, hc]
  | cons a as ih =>
    have ha := hpre a (by simp)
    have has : ∀ x ∈ as, cl.containerRemove x.ID true = .ok () :=
      fun x hx => hpre x (by simp [hx])
    simp [removeContainersLoop, ha, ih has]

theorem removeNetworksLoop_ok (cl : ComposeClient) (ns : List NetworkInfo)
    (h : ∀ n ∈ ns, cl.networkRemove n.Id = .ok ()) :
    removeNetworksLoop cl ns = (ns.map fun n => Call.networkRemove n.Id, .ok ()) := by
  induction ns with
  | nil => rfl
  | cons n rest ih =>
    have hn := h n (by simp)
    have hrest : ∀ x ∈ rest, cl.networkRemove x.Id = .ok () :=
      fun x hx => h x (by simp [hx])
    simp [removeNetworksLoop, hn, ih hrest]

theorem removeVolumesLoop_ok (cl : ComposeClient) (vs : List VolumeInfo)
    (h : ∀ v ∈ vs, cl.volumeRemove v.Name true = .ok ()) :
    removeVolumesLoop cl vs = (vs.map fun v => Call.volumeRemove v.Name true, .ok ()) := by
  induction vs with
  | nil => rfl
  | cons v rest ih =>
    have hv := h v (by simp)
    have hrest : ∀ x ∈ rest, cl.volumeRemove x.Name true = .ok () :=
      fun x hx => h x (by simp [hx])
    simp [removeVolumesLoop, hv, ih hrest]

theorem stopContainersLoop_no_volume (cl : ComposeClient) (cs : List ContainerInfo) :
    ∀ call ∈ (stopContainersLoop cl cs).1, call.isVolumeCall = false := by
  induction cs with
  | nil => simp [stopContainersLoop]
  | cons c rest ih =>
    intro call hcall
    cases h : cl.containerStop c.ID none with
    | error e =>
      simp [stopContainersLoop, h] at hcall
      subst hcall; rfl
    | ok u =>
      simp [stopContainersLoop, h] at hcall
      rcases hcall with h1 | h2
      · subst h1; rfl
      · exact ih call h2

theorem removeContainersLoop_no_volume (cl : ComposeClient) (cs : List ContainerInfo) :
    ∀ call ∈ (removeContainersLoop cl cs).1, call.isVolumeCall = false := by
  induction cs with
  | nil => simp [removeContainersLoop]
  | cons c rest ih =>
    intro call hcall
    cases h : cl.containerRemove c.ID true with
    | error e =>
      simp [removeContainersLoop, h] at hcall
      subst hcall; rfl
    | ok u =>
      simp [removeContainersLoop, h] at hcall
      rcases hcall with h1 | h2
      · subst h1; rfl
      · exact ih call h2

theorem removeNetworksLoop_no_volume (cl : ComposeClient) (ns : List NetworkInfo) :
    ∀ call ∈ (removeNetworksLoop cl ns).1, call.isVolumeCall = false := by
  induction ns with
  | nil => simp [removeNetworksLoop]
  | cons n rest ih =>
    intro call hcall
    cases h : cl.networkRemove n.Id with
    | error e =>
      simp [removeNetworksLoop, h] at hcall
      subst hcall; rfl
    | ok u =>
      simp [removeNetworksLoop, h] at hcall
      rcases hcall with h1 | h2
      · subst h1; rfl
      · exact ih call h2

/-- C2: when every remote call succeeds, `DownComposeProject` issues exactly
the phases list-containers, stop each, remove each (force), list networks,
remove each, then — only when `removeVolumes` — list volumes and remove each
(force), in that order; and with `removeVolumes = false` no run of
`DownComposeProject`, whatever the client's outcomes, ever issues a volume
call. -/
theorem C2_down_phase_order :
    (∀ (cl : ComposeClient) (p : String) (rv : Bool)
      (cs : List ContainerInfo) (ns : List NetworkInfo) (vs : List VolumeInfo),
      cl.containerList (findComposeOpts p) = .ok cs →
      (∀ c ∈ cs, cl.containerStop c.ID none = .ok ()) →
      (∀ c ∈ cs, cl.containerRemove c.ID true = .ok ()) →
      cl.networkList (projectLabel p) = .ok ns →
      (∀ n ∈ ns, cl.networkRemove n.Id = .ok ()) →
      cl.volumeList (projectLabel p) = .ok vs →
      (∀ v ∈ vs, cl.volumeRemove v.Name true = .ok ()) →
      DownComposeProject cl p rv =
        (Call.containerList (findComposeOpts p)
          :: (cs.map fun c => Call.containerStop c.ID none)
          ++ (cs.map fun c => Call.containerRemove c.ID true)
          ++ [Call.networkList (projectLabel p)]
          ++ (ns.map fun n => Call.networkRemove n.Id)
          ++ (if rv then Call.volumeList (projectLabel p)
                :: (vs.map fun v => Call.volumeRemove v.Name true) else []),
         .ok ()))
    ∧ (∀ (cl : ComposeClient) (p : String) (call : Call),
        call ∈ (DownComposeProject cl p false).1 → call.isVolumeCall = false) := by
  constructor
  · intro cl p rv cs ns vs hlist hstop hrem hnl hnr hvl hvr
    have hs := stopContainersLoop_ok cl cs hstop
    have hr := removeContainersLoop_ok cl cs hrem
    have hn := removeNetworksLoop_ok cl ns hnr
    have hv := removeVolumesLoop_ok cl vs hvr
    cases rv <;> simp [DownComposeProject, hlist, hs, hr, hnl, hn, hvl, hv]
  · intro cl p call hcall
    unfold DownComposeProject at hcall
    cases hlist : cl.containerList (findComposeOpts p) with
    | error e =>
      simp [hlist] at hcall
      subst hcall; rfl
    | ok cs =>
      simp only [hlist] at hcall
      cases hs : (stopContainersLoop cl cs).2 with
      | error e =>
        simp only [hs] at hcall
        simp at hcall
        rcases hcall with h1 | h2
        · subst h1; rfl
        · exact stopContainersLoop_no_volume cl cs call h2
      | ok u =>
        simp only [hs] at hcall
        cases hr : (removeContainersLoop cl cs).2 with
        | error e =>
          simp only [hr] at hcall
          simp at hcall
          rcases hcall with h1 | h2 | h3
          · subst h1; rfl
          · exact stopContainersLoop_no_volume cl cs call h2
          · exact removeContainersLoop_no_volume cl cs call h3
        | ok u2 =>
          simp only [hr] at hcall
          cases hnl : cl.networkList (projectLabel p) with
          | error e =>
            simp only [hnl] at hcall
            simp at hcall
            rcases hcall with h1 | h2 | h3 | h4
            · subst h1; rfl
            · exact stopContainersLoop_no_volume cl cs call h2
            · exact removeContainersLoop_no_volume cl cs call h3
            · subst h4; rfl
          | ok networks =>
            simp only [hnl] at hcall
            cases hnr : (removeNetworksLoop cl networks).2 with
            | error e =>
              simp only [hnr] at hcall
              simp at hcall
              rcases hcall with h1 | h2 | h3 | h4 | h5
              · subst h1; rfl
              · exact stopContainersLoop_no_volume cl cs call h2
              · exact removeContainersLoop_no_volume cl cs call h3
              · subst h4; rfl
              · exact removeNetworksLoop_no_volume cl networks call h5
            | ok u3 =>
              simp only [hnr] at hcall
              simp at hcall
              rcases hcall with h1 | h2 | h3 | h4 | h5
              · subst h1; rfl
              · exact stopContainersLoop_no_volume cl cs call h2
              · exact removeContainersLoop_no_volume cl cs call h3
              · subst h4; rfl
              · exact removeNetworksLoop_no_volume cl networks call h5

/-- A client on which every remote call succeeds: one running container, one
network and one labelled volume for the project. -/
def okClient : ComposeClient where
  containerList := fun _ =>
    .ok [⟨"web123", ["/myproject-web-1"], [("com.docker.compose.project", "myproject")], "running"⟩]
  containerStop := fun _ _ => .ok ()
  containerRemove := fun _ _ => .ok ()
  networkList := fun _ => .ok [⟨"net123", "myproject_default"⟩]
  networkRemove := fun _ => .ok ()
  volumeList := fun _ => .ok [⟨"myproject_data", [("com.docker.compose.project", "myproject")]⟩]
  volumeRemove := fun _ _ => .ok ()

/-- C2 witness: on the all-success client with `removeVolumes = true`, the
trace is exactly the six phases in order and the result is success. -/
theorem C2_down_phase_order_witness :
    DownComposeProject okClient "myproject" true =
      ([Call.containerList (findComposeOpts "myproject"),
        Call.containerStop "web123" none,
        Call.containerRemove "web123" true,
        Call.networkList (projectLabel "myproject"),
        Call.networkRemove "net123",
        Call.volumeList (projectLabel "myproject"),
        Call.volumeRemove "myproject_data" true],
       .ok ()) := by
  have h := C2_down_phase_order.1 okClient "myproject" true
    [⟨"web123", ["/myproject-web-1"], [("com.docker.compose.project", "myproject")], "running"⟩]
    [⟨"net123", "myproject_default"⟩]
    [⟨"myproject_data", [("com.docker.compose.project", "myproject")]⟩]
    rfl (fun _ _ => rfl) (fun _ _ => rfl) rfl (fun _ _ => rfl) rfl (fun _ _ => rfl)
  simpa using h

/-- C3: stopping and teardown are fail-fast.  If the stop of container `c`
fails after the containers of `pre` stopped, `StopComposeProject` and
`DownComposeProject` (for either flag value) issue no further calls — nothing
for later containers and no remove/network/volume phase — and return the
wrapped error; if a container-remove fails, the loop stops there and no
network/volume phase runs; in both cases the failing container's identifier
occurs inside the returned error message. -/
theorem C3_fail_fast :
    (∀ (cl : ComposeClient) (p : String) (pre : List ContainerInfo) (c : ContainerInfo)
      (post : List ContainerInfo) (e : String),
      cl.containerList (findComposeOpts p) = .ok (pre ++ c :: post) →
      (∀ x ∈ pre, cl.containerStop x.ID none = .ok ()) →
      cl.containerStop c.ID none = .error e →
      StopComposeProject cl p =
        (Call.containerList (findComposeOpts p)
          :: (pre.map fun x => Call.containerStop x.ID none) ++ [Call.containerStop c.ID none],
         .error (stopErrMsg c.ID e))
      ∧ ∀ rv : Bool, DownComposeProject cl p rv =
        (Call.containerList (findComposeOpts p)
          :: (pre.map fun x => Call.containerStop x.ID none) ++ [Call.containerStop c.ID none],
         .error (stopErrMsg c.ID e)))
    ∧ (∀ (cl : ComposeClient) (p : String) (pre : List ContainerInfo) (c : ContainerInfo)
      (post : List ContainerInfo) (e : String) (rv : Bool),
      cl.containerList (findComposeOpts p) = .ok (pre ++ c :: post) →
      (∀ x ∈ pre ++ c :: post, cl.containerStop x.ID none = .ok ()) →
      (∀ x ∈ pre, cl.containerRemove x.ID true = .ok ()) →
      cl.containerRemove c.ID true = .error e →
      DownComposeProject cl p rv =
        (Call.containerList (findComposeOpts p)
          :: ((pre ++ c :: post).map fun x => Call.containerStop x.ID none)
          ++ ((pre.map fun x => Call.containerRemove x.ID true) ++ [Call.containerRemove c.ID true]),
         .error (removeErrMsg c.ID e)))
    ∧ (∀ id e : String, List.IsInfix id.data (stopErrMsg id e).data
         ∧ List.IsInfix id.data (removeErrMsg id e).data) := by
  refine ⟨fun cl p pre c post e hlist hpre hc => ?_, fun cl p pre c post e rv hlist hstop hpre hc => ?_,
    fun id e => ⟨⟨"failed to stop container ".data, (": " ++ e).data, ?_⟩,
                 ⟨"failed to remove container ".data, (": " ++ e).data, ?_⟩⟩⟩
  · have hs := stopContainersLoop_fail cl pre c post e hpre hc
    constructor
    · simp [StopComposeProject, hlist, hs]
    · intro rv
      simp [DownComposeProject, hlist, hs]
  · have hs := stopContainersLoop_ok cl (pre ++ c :: post) hstop
    have hr := removeContainersLoop_fail cl pre c post e hpre hc
    simp [DownComposeProject, hlist, hs, hr]
  · simp [stopErrMsg, String.data_append, List.append_assoc]
  · simp [removeErrMsg, String.data_append, List.append_assoc]

/-- A client with three containers on which stopping the second fails. -/
def failClient : ComposeClient where
  containerList := fun _ =>
    .ok [⟨"c1", ["/dev1"], [], "running"⟩, ⟨"c2", ["/dev2"], [], "running"⟩,
         ⟨"c3", ["/dev3"], [], "running"⟩]
  containerStop := fun id _ => if id = "c2" then .error "boom" else .ok ()
  containerRemove := fun _ _ => .ok ()
  networkList := fun _ => .ok []
  networkRemove := fun _ => .ok ()
  volumeList := fun _ => .ok []
  volumeRemove := fun _ _ => .ok ()

/-- C3 witness: with three containers and the second stop failing, the third
stop is never attempted, no later phase is entered, and the error names the
second container. -/
theorem C3_fail_fast_witness :
    StopComposeProject failClient "myproject" =
      ([Call.containerList (findComposeOpts "myproject"),
        Call.containerStop "c1" none, Call.containerStop "c2" none],
       .error (stopErrMsg "c2" "boom"))
    ∧ DownComposeProject failClient "myproject" true =
      ([Call.containerList (findComposeOpts "myproject"),
        Call.containerStop "c1" none, Call.containerStop "c2" none],
       .error (stopErrMsg "c2" "boom")) := by
  have h := C3_fail_fast.1 failClient "myproject"
    [⟨"c1", ["/dev1"], [], "running"⟩] ⟨"c2", ["/dev2"], [], "running"⟩
    [⟨"c3", ["/dev3"], [], "running"⟩] "boom"
    rfl (by intro x hx; simp only [List.mem_singleton] at hx; subst hx; rfl) rfl
  exact ⟨by simpa using h.1, by simpa using h.2 true⟩

/-- C4: an empty container query is success for both operations:
`StopComposeProject` returns at once, and `DownComposeProject` still issues
the network phase and — exactly when `removeVolumes` is true — the volume
phase. -/
theorem C4_zero_containers :
    ∀ (cl : ComposeClient) (p : String) (ns : List NetworkInfo) (vs : List VolumeInfo),
      cl.containerList (findComposeOpts p) = .ok [] →
      cl.networkList (projectLabel p) = .ok ns →
      (∀ n ∈ ns, cl.networkRemove n.Id = .ok ()) →
      cl.volumeList (projectLabel p) = .ok vs →
      (∀ v ∈ vs, cl.volumeRemove v.Name true = .ok ()) →
      StopComposeProject cl p = ([Call.containerList (findComposeOpts p)], .ok ())
      ∧ DownComposeProject cl p false =
          (Call.containerList (findComposeOpts p)
            :: Call.networkList (projectLabel p) :: (ns.map fun n => Call.networkRemove n.Id),
           .ok ())
      ∧ DownComposeProject cl p true =
          (Call.containerList (findComposeOpts p)
            :: Call.networkList (projectLabel p) :: (ns.map fun n => Call.networkRemove n.Id)
            ++ [Call.volumeList (projectLabel p)]
            ++ (vs.map fun v => Call.volumeRemove v.Name true),
           .ok ()) := by
  intro cl p ns vs hlist hnl hnr hvl hvr
  have hn := removeNetworksLoop_ok cl ns hnr
  have hv := removeVolumesLoop_ok cl vs hvr
  refine ⟨?_, ?_, ?_⟩
  · simp [StopComposeProject, hlist, stopContainersLoop]
  · simp [DownComposeProject, hlist, stopContainersLoop, removeContainersLoop, hnl, hn]
  · simp [DownComposeProject, hlist, stopContainersLoop, removeContainersLoop, hnl, hn, hvl, hv]

/-- A client with zero containers but one leftover network and one leftover
volume for the project. -/
def emptyProjectClient : ComposeClient where
  containerList := fun _ => .ok []
  containerStop := fun _ _ => .ok ()
  containerRemove := fun _ _ => .ok ()
  networkList := fun _ => .ok [⟨"net9", "p_default"⟩]
  networkRemove := fun _ => .ok ()
  volumeList := fun _ => .ok [⟨"p_data", []⟩]
  volumeRemove := fun _ _ => .ok ()

/-- C4 witness: with zero containers both operations succeed and `down`
still cleans up the leftover network (and the volume when requested). -/
theorem C4_zero_containers_witness :
    StopComposeProject emptyProjectClient "p" =
      ([Call.containerList (findComposeOpts "p")], .ok ())
    ∧ DownComposeProject emptyProjectClient "p" true =
      ([Call.containerList (findComposeOpts "p"),
        Call.networkList (projectLabel "p"), Call.networkRemove "net9",
        Call.volumeList (projectLabel "p"), Call.volumeRemove "p_data" true],
       .ok ()) := by
  have h := C4_zero_containers emptyProjectClient "p" [⟨"net9", "p_default"⟩] [⟨"p_data", []⟩]
    rfl rfl (fun _ _ => rfl) rfl (fun _ _ => rfl)
  exact ⟨h.1, by simpa using h.2.2⟩

/-- A directory entry as returned by `os.ReadDir`. -/
structure DirEntry where
  name : String
  isDir : Bool
deriving DecidableEq, Repr

/-- The slice of the filesystem observed by `FindDevcontainerConfigs`:
`statExists p` is "`os.Stat(p)` does not report not-exist", `readDir` is
`os.ReadDir` (`none` models a read failure). -/
structure FileSystem where
  statExists : String → Bool
  readDir : String → Option (List DirEntry)

/-- The two failure modes of `FindDevcontainerConfigs`. -/
inductive FindError where
  | notFound (dir : String)
  | readDirFailed (dir : String)
deriving DecidableEq, Repr

/-- `FindDevcontainerConfigs` from `internal/devcontainer/finder.go`: error
when the root is absent; empty result when `<root>/.devcontainer` is absent;
otherwise the flat `devcontainer.json` (if present) followed by
`<subdir>/devcontainer.json` for every immediate subdirectory that has one. -/
def FindDevcontainerConfigs (fs : FileSystem) (dir : String) : Except FindError (List String) :=
  if fs.statExists dir = false then .error (.notFound dir)
  else
    let devcontainerDir := Join2 dir ".devcontainer"
    if fs.statExists devcontainerDir = false then .ok []
    else
      let mainConfig := Join2 devcontainerDir "devcontainer.json"
      let configs := if fs.statExists mainConfig then [mainConfig] else []
      match fs.readDir devcontainerDir with
      | none => .error (.readDirFailed devcontainerDir)
      | some entries =>
        .ok (configs ++
          ((entries.filter (fun en => en.isDir)).map
            (fun en => Join3 devcontainerDir en.name "devcontainer.json")).filter fs.statExists)

/-- C8: the not-found error is returned exactly when the root directory does
not exist; an existing root with no `.devcontainer` subdirectory gives an
empty result with no error; and an existing, readable `.devcontainer` that
contains no `devcontainer.json` (neither flat nor in any subdirectory) also
gives an empty result with no error. -/
theorem C8_finder_errors :
    (∀ (fs : FileSystem) (dir : String),
      FindDevcontainerConfigs fs dir = .error (.notFound dir) ↔ fs.statExists dir = false)
    ∧ (∀ (fs : FileSystem) (dir : String),
      fs.statExists dir = true →
      fs.statExists (Join2 dir ".devcontainer") = false →
      FindDevcontainerConfigs fs dir = .ok [])
    ∧ (∀ (fs : FileSystem) (dir : String) (entries : List DirEntry),
      fs.statExists dir = true →
      fs.statExists (Join2 dir ".devcontainer") = true →
      fs.readDir (Join2 dir ".devcontainer") = some entries →
      fs.statExists (Join2 (Join2 dir ".devcontainer") "devcontainer.json") = false →
      (∀ en ∈ entries,
        fs.statExists (Join3 (Join2 dir ".devcontainer") en.name "devcontainer.json") = false) →
      FindDevcontainerConfigs fs dir = .ok []) := by
  refine ⟨fun fs dir => ⟨fun h => ?_, fun h => ?_⟩, fun fs dir h1 h2 => ?_,
    fun fs dir entries h1 h2 hrd hmain hsub => ?_⟩
  · by_contra hex
    rw [Bool.not_eq_false] at hex
    unfold FindDevcontainerConfigs at h
    simp only [hex] at h
    set dc := Join2 dir ".devcontainer" with hdc
    by_cases h2 : fs.statExists dc = false
    · simp [h2] at h
    · simp only [h2, if_false, reduceIte] at h
      cases hrd : fs.readDir dc with
      | none => simp [hrd] at h
      | some entries => simp [hrd] at h
  · unfold FindDevcontainerConfigs
    simp [h]
  · unfold FindDevcontainerConfigs
    simp [h1, h2]
  · unfold FindDevcontainerConfigs
    simp only [h1, h2, hrd, hmain, Bool.true_eq_false, Bool.false_eq_true, if_false,
      reduceIte, List.nil_append]
    refine congrArg Except.ok ?_
    rw [List.filter_eq_nil_iff]
    intro call hcall
    simp only [List.mem_map] at hcall
    obtain ⟨en, hen, rfl⟩ := hcall
    simp [hsub en (List.mem_of_mem_filter hen)]

/-- A filesystem with an existing workspace root and `.devcontainer`
directory that contains no `devcontainer.json` anywhere, plus nothing else. -/
def demoFS : FileSystem where
  statExists := fun p => ["/ws", "/ws/.devcontainer"].contains p
  readDir := fun p =>
    if p = "/ws/.devcontainer" then some [⟨"sub", true⟩, ⟨"notes.txt", false⟩] else none

/-- C8 witness: a missing root yields the not-found error, and an existing
root whose `.devcontainer` holds no definition files yields an empty, error
free result. -/
theorem C8_finder_errors_witness :
    FindDevcontainerConfigs demoFS "/nope" = .error (.notFound "/nope")
    ∧ FindDevcontainerConfigs demoFS "/ws" = .ok [] := by
  refine ⟨(C8_finder_errors.1 demoFS "/nope").mpr (by decide),
    C8_finder_errors.2.2 demoFS "/ws" [⟨"sub", true⟩, ⟨"notes.txt", false⟩]
      (by decide) (by decide) (by decide) (by decide) ?_⟩
  intro en hen
  fin_cases hen <;> decide

/-! `stripJSONC` from `internal/devcontainer/parser.go` applies, in order,
the textual replacements `//[^\n]*` → now nothing, `/\*[\s\S]*?\*/` → nothing,
`,(\s*[}\]])` → the captured group, then trims surrounding space.  Each
regex pass is embedded as the equivalent left-to-right scanner. -/

/-- Pass 1, `//[^\n]*` → "": outside a comment, `//` starts a comment;
inside one, everything up to (not including) the newline is dropped. -/
def stripLineAux : Bool → List Char → List Char
  | _, [] => []
  | true, '\n' :: rest => '\n' :: stripLineAux false rest
  | true, _ :: rest => stripLineAux true rest
  | false, '/' :: '/' :: rest => stripLineAux true rest
  | false, c :: rest => c :: stripLineAux false rest

/-- Does the two-character sequence `p q` occur somewhere in the list? -/
def hasPair (p q : Char) : List Char → Bool
  | [] => false
  | c :: rest => (c == p && rest.head? == some q) || hasPair p q rest

/-- Does `*/` occur somewhere in the list? -/
def hasStarSlash (l : List Char) : Bool := hasPair '*' '/' l

/-- Does `//` occur somewhere in the list? -/
def hasSS (l : List Char) : Bool := hasPair '/' '/' l

/-- Does `/*` occur somewhere in the list? -/
def hasSlashStar (l : List Char) : Bool := hasPair '/' '*' l

/-- Drop everything up to and including the first `*/`. -/
def dropToClose : List Char → List Char
  | '*' :: '/' :: rest => rest
  | _ :: rest => dropToClose rest
  | [] => []

theorem dropToClose_length_le (l : List Char) : (dropToClose l).length ≤ l.length := by
  induction l using dropToClose.induct <;> simp_all [dropToClose] <;> omega

/-- Pass 2, non-greedy `/\*[\s\S]*?\*/` → "": a `/*` with a later `*/` is
removed up to the first such `*/`; an unterminated `/*` has no match (and
then nothing later can match either), so the remainder is kept verbatim.
A step budget (one unit per scanned character) keeps the recursion
structural; `stripBlock` supplies a sufficient budget. -/
def stripBlockF : Nat → List Char → List Char
  | _, [] => []
  | 0, l => l
  | fuel + 1, '/' :: '*' :: rest =>
    if hasStarSlash rest then stripBlockF fuel (dropToClose rest)
    else '/' :: '*' :: rest
  | fuel + 1, c :: rest => c :: stripBlockF fuel rest

def stripBlock (l : List Char) : List Char := stripBlockF l.length l

/-- RE2's `\s` character class (`[\t\n\f\r ]`). -/
def isWsRE (c : Char) : Bool :=
  c = '\t' || c = '\n' || c = '\x0c' || c = '\r' || c = ' '

/-- Pass 3, `,(\s*[}\]])` → `$1`: a comma followed by optional whitespace and
a closing brace or bracket is dropped, keeping the whitespace and bracket;
scanning resumes after the bracket.  Step budget as in `stripBlockF`. -/
def stripCommasF : Nat → List Char → List Char
  | _, [] => []
  | 0, l => l
  | fuel + 1, ',' :: rest =>
    (match rest.dropWhile isWsRE with
     | b :: r3 =>
       if b = '}' ∨ b = ']' then rest.takeWhile isWsRE ++ b :: stripCommasF fuel r3
       else ',' :: stripCommasF fuel rest
     | [] => ',' :: stripCommasF fuel rest)
  | fuel + 1, c :: rest => c :: stripCommasF fuel rest

def stripCommas (l : List Char) : List Char := stripCommasF l.length l

/-- Go `strings.TrimSpace` (ASCII white space; the repository's inputs are
ASCII). -/
def goIsSpace (c : Char) : Bool :=
  c = ' ' || c = '\t' || c = '\n' || c = '\x0b' || c = '\x0c' || c = '\r'

def trimSpace (l : List Char) : List Char :=
  ((l.dropWhile goIsSpace).reverse.dropWhile goIsSpace).reverse

/-- `stripJSONC` from `internal/devcontainer/parser.go`. -/
def stripJSONC (s : String) : String :=
  ⟨trimSpace (stripCommas (stripBlock (stripLineAux false s.data)))⟩

example : stripJSONC "\x7b\n// c\n\"image\": \"node:18\",\n/* b */\x7d" = "\x7b\n\n\"image\": \"node:18\"\n\x7d" := by decide

/-! A model of `encoding/json` sufficient for the `rawConfig` decoding done
by `ParseConfig`: a JSON value grammar with a strict parser (whitespace per
the JSON spec, escape handling, number syntax, no trailing data), object
fields kept in source order, and Go's unmarshalling rules for `string`,
`[]string`, `json.RawMessage` and the `rawConfig` struct. -/

inductive JVal where
  | null
  | bool (b : Bool)
  | num (lit : List Char)
  | str (s : List Char)
  | arr (elems : List JVal)
  | obj (fields : List (List Char × JVal))

/-- JSON inter-token whitespace (space, tab, newline, carriage return). -/
def jIsWs (c : Char) : Bool := c = ' ' || c = '\t' || c = '\n' || c = '\r'

def hexVal (c : Char) : Option Nat :=
  if '0' ≤ c ∧ c ≤ '9' then some (c.toNat - 48)
  else if 'a' ≤ c ∧ c ≤ 'f' then some (c.toNat - 87)
  else if 'A' ≤ c ∧ c ≤ 'F' then some (c.toNat - 55)
  else none

/-- String-literal contents after the opening quote: plain characters above
0x1F, the standard escapes, and `\uXXXX` (hex-decoded directly; surrogate
pairing is not modelled — no claim input uses `\u` escapes). -/
def parseJString : Nat → List Char → Option (List Char × List Char)
  | _, [] => none
  | 0, _ => none
  | fuel + 1, c :: rest =>
    if c = '"' then some ([], rest)
    else if c = '\\' then
      match rest with
      | [] => none
      | e :: rest2 =>
        let esc : Option (Char × List Char) :=
          if e = '"' then some ('"', rest2)
          else if e = '\\' then some ('\\', rest2)
          else if e = '/' then some ('/', rest2)
          else if e = 'b' then some ('\x08', rest2)
          else if e = 'f' then some ('\x0c', rest2)
          else if e = 'n' then some ('\n', rest2)
          else if e = 'r' then some ('\r', rest2)
          else if e = 't' then some ('\t', rest2)
          else if e = 'u' then
            match rest2 with
            | h1 :: h2 :: h3 :: h4 :: rest3 =>
              (match hexVal h1, hexVal h2, hexVal h3, hexVal h4 with
               | some a, some b, some c2, some d =>
                 some (Char.ofNat (((a * 16 + b) * 16 + c2) * 16 + d), rest3)
               | _, _, _, _ => none)
            | _ => none
          else none
        match esc with
        | none => none
        | some (ch, r) =>
          match parseJString fuel r with
          | some (s, rem) => some (ch :: s, rem)
          | none => none
    else if c.toNat < 32 then none
    else
      match parseJString fuel rest with
      | some (s, rem) => some (c :: s, rem)
      | none => none

def parseIntPart : List Char → Option (List Char × List Char)
  | '0' :: r => some (['0'], r)
  | c :: r =>
    if c.isDigit then some (c :: r.takeWhile Char.isDigit, r.dropWhile Char.isDigit)
    else none
  | [] => none

def parseFrac : List Char → Option (List Char × List Char)
  | '.' :: r =>
    let ds := r.takeWhile Char.isDigit
    if ds = [] then none else some ('.' :: ds, r.dropWhile Char.isDigit)
  | l => some ([], l)

def parseExp : List Char → Option (List Char × List Char)
  | e :: r =>
    if e = 'e' ∨ e = 'E' then
      let p := match r with
        | '+' :: rr => ((['+'] : List Char), rr)
        | '-' :: rr => ((['-'] : List Char), rr)
        | _ => ([], r)
      let ds := p.2.takeWhile Char.isDigit
      if ds = [] then none else some (e :: p.1 ++ ds, p.2.dropWhile Char.isDigit)
    else some ([], e :: r)
  | [] => some ([], [])

/-- JSON number syntax `-?(0|[1-9][0-9]*)(\.[0-9]+)?([eE][+-]?[0-9]+)?`,
returning the literal and the remainder. -/
def parseNumber (l : List Char) : Option (List Char × List Char) :=
  let p := match l with
    | '-' :: r => ((['-'] : List Char), r)
    | _ => ([], l)
  match parseIntPart p.2 with
  | none => none
  | some (ip, r1) =>
    match parseFrac r1 with
    | none => none
    | some (fp, r2) =>
      match parseExp r2 with
      | none => none
      | some (ep, r3) => some (p.1 ++ ip ++ fp ++ ep, r3)

mutual
/-- One JSON value, starting at a non-whitespace character. -/
def parseVal : Nat → List Char → Option (JVal × List Char)
  | 0, _ => none
  | fuel + 1, l =>
    match l with
    | 'n' :: 'u' :: 'l' :: 'l' :: r => some (.null, r)
    | 't' :: 'r' :: 'u' :: 'e' :: r => some (.bool true, r)
    | 'f' :: 'a' :: 'l' :: 's' :: 'e' :: r => some (.bool false, r)
    | '"' :: r =>
      (match parseJString fuel r with
       | some (s, rem) => some (.str s, rem)
       | none => none)
    | '[' :: r =>
      (match r.dropWhile jIsWs with
       | ']' :: r2 => some (.arr [], r2)
       | r1 =>
         match parseElems fuel r1 with
         | some (es, rem) => some (.arr es, rem)
         | none => none)
    | '{' :: r =>
      (match r.dropWhile jIsWs with
       | '}' :: r2 => some (.obj [], r2)
       | r1 =>
         match parseFields fuel r1 with
         | some (fs, rem) => some (.obj fs, rem)
         | none => none)
    | _ =>
      (match parseNumber l with
       | some (lit, r) => some (.num lit, r)
       | none => none)

/-- Non-empty array elements, each preceded by stripped whitespace. -/
def parseElems : Nat → List Char → Option (List JVal × List Char)
  | 0, _ => none
  | fuel + 1, l =>
    match parseVal fuel l with
    | none => none
    | some (v, r) =>
      (match r.dropWhile jIsWs with
       | ',' :: r2 =>
         (match parseElems fuel (r2.dropWhile jIsWs) with
          | some (vs, rem) => some (v :: vs, rem)
          | none => none)
       | ']' :: r2 => some ([v], r2)
       | _ => none)

/-- Non-empty object fields: string key, colon, value, comma or brace. -/
def parseFields : Nat → List Char → Option (List (List Char × JVal) × List Char)
  | 0, _ => none
  | fuel + 1, l =>
    match l with
    | '"' :: r =>
      (match parseJString fuel r with
       | none => none
       | some (k, r1) =>
         match r1.dropWhile jIsWs with
         | ':' :: r2 =>
           (match parseVal fuel (r2.dropWhile jIsWs) with
            | none => none
            | some (v, r3) =>
              match r3.dropWhile jIsWs with
              | ',' :: r4 =>
                (match parseFields fuel (r4.dropWhile jIsWs) with
                 | some (fs, rem) => some ((k, v) :: fs, rem)
                 | none => none)
              | '}' :: r4 => some ([(k, v)], r4)
              | _ => none)
         | _ => none)
    | _ => none
end

/-- `json.Unmarshal`'s top level: one value, no trailing non-whitespace
data, error on anything else.  The step budget `2·|input| + 2` is ample (the
recursion consumes budget no faster than two units per input character). -/
def jparse (s : String) : Option JVal :=
  match parseVal (2 * s.data.length + 2) (s.data.dropWhile jIsWs) with
  | some (v, rest) => if rest.dropWhile jIsWs = [] then some v else none
  | none => none

/-- `rawConfig` from `internal/devcontainer/parser.go`: `image` and
`service` decode as strings, `dockerComposeFile` is kept as the raw JSON
value (`json.RawMessage`), absent when the key never occurs. -/
structure RawConfig where
  image : List Char
  dockerComposeFile : Option JVal
  service : List Char

/-- Application of one object field to the `rawConfig` being decoded: the
recognised keys must hold values of the right Go type (JSON null is a no-op
for any target and never an error), later duplicates overwrite, unknown keys
are ignored.  Go's case-insensitive fallback for field names is not
modelled; every input considered uses the exact key spellings. -/
def applyField (raw : RawConfig) (key : List Char) (v : JVal) : Option RawConfig :=
  if key = "image".data then
    match v with
    | .str s => some { raw with image := s }
    | .null => some raw
    | _ => none
  else if key = "dockerComposeFile".data then
    some { raw with dockerComposeFile := some v }
  else if key = "service".data then
    match v with
    | .str s => some { raw with service := s }
    | .null => some raw
    | _ => none
  else some raw

/-- `json.Unmarshal(cleaned, &raw)`: the top level must be an object (or
null, which leaves the zero struct). -/
def decodeRawConfig (v : JVal) : Option RawConfig :=
  match v with
  | .obj fields => fields.foldlM (fun r kv => applyField r kv.1 kv.2) ⟨[], none, []⟩
  | .null => some ⟨[], none, []⟩
  | _ => none

/-- Unmarshal of value bytes into a Go `string`: succeeds on a JSON string,
and succeeds as a no-op on JSON null (the string keeps its zero value ""). -/
def decodeGoString : JVal → Option (List Char)
  | .str s => some s
  | .null => some []
  | _ => none

/-- Element loop of the `[]string` decoding: each element must decode as a
Go string, first failure aborts. -/
def decodeGoStrings : List JVal → Option (List (List Char))
  | [] => some []
  | v :: vs =>
    match decodeGoString v with
    | none => none
    | some s =>
      match decodeGoStrings vs with
      | none => none
      | some ss => some (s :: ss)

/-- Unmarshal into `[]string`: an array whose elements decode as Go strings
(null elements are no-ops, leaving ""), or null giving the nil slice. -/
def decodeGoStringList : JVal → Option (List (List Char))
  | .arr vs => decodeGoStrings vs
  | .null => some []
  | _ => none

/-- `parseDockerComposeFile` from `internal/devcontainer/parser.go`: try a
single string first, then an array of strings, otherwise fail. -/
def parseDockerComposeFile (v : JVal) : Except String (List (List Char)) :=
  match decodeGoString v with
  | some s => .ok [s]
  | none =>
    match decodeGoStringList v with
    | some ss => .ok ss
    | none => .error "dockerComposeFile must be a string or array of strings"

/-- `ParseConfig` from `internal/devcontainer/parser.go`, over given file
bytes (the `os.ReadFile` step is modelled by passing the bytes; read errors
are outside the claims).  Inner `encoding/json` error strings are abstracted
to a fixed message. -/
def ParseConfigBytes (path : String) (data : String) : Except String Config :=
  let cleaned := stripJSONC data
  match jparse cleaned with
  | none => .error "failed to parse config"
  | some v =>
    match decodeRawConfig v with
    | none => .error "failed to parse config"
    | some raw =>
      match raw.dockerComposeFile with
      | none => .ok ⟨⟨raw.image⟩, [], ⟨raw.service⟩, path⟩
      | some dcf =>
        match parseDockerComposeFile dcf with
        | .error e => .error e
        | .ok files => .ok ⟨⟨raw.image⟩, files.map (fun f => ⟨f⟩), ⟨raw.service⟩, path⟩

example : ParseConfigBytes "/p" "\x7b\"name\": \"Go Dev\", \"image\": \"golang:1.21\"\x7d"
    = .ok ⟨"golang:1.21", [], "", "/p"⟩ := by rfl

example : ParseConfigBytes "/p"
    "\x7b\n\t// c\n\t\"dockerComposeFile\": [\"a.yml\", \"b.yml\"],\n\t\"service\": \"web\",\n\x7d"
    = .ok ⟨"", ["a.yml", "b.yml"], "web", "/p"⟩ := by rfl

example : ParseConfigBytes "/p" "\x7binvalid" = .error "failed to parse config" := by rfl

/-- C7 counterexample: the claim asserts every JSON shape other than a
string or an array of strings makes `ParseConfig` fail, but a JSON `null`
value for the field parses successfully — Go's unmarshal treats null as a
no-op on a string target, so the string branch of `parseDockerComposeFile`
succeeds with the zero value and the definition gets `composeFiles = [""]`. -/
theorem C7_null_compose_file_accepted :
    ParseConfigBytes "/p/devcontainer.json" "\x7b\"dockerComposeFile\": null\x7d"
      = .ok ⟨"", [""], "", "/p/devcontainer.json"⟩ := by rfl

/-- C7 (amended): a string `s` normalizes to `[s]` and an array of strings
to the same sequence in order; JSON null yields `[""]` and a null array
element yields `""` (Go null-is-no-op unmarshalling); every other shape —
bool, number, object, or an array containing a non-string non-null element —
fails with the `dockerComposeFile` parse error, and both outcomes propagate
through `ParseConfig` (failure as the returned error, success as the
definition's composeFiles sequence in order). -/
theorem C7_compose_file_field :
    (∀ s : List Char, parseDockerComposeFile (.str s) = .ok [s])
    ∧ (∀ ss : List (List Char), parseDockerComposeFile (.arr (ss.map JVal.str)) = .ok ss)
    ∧ (∀ vs : List JVal, (∀ v ∈ vs, v = JVal.null ∨ ∃ s, v = JVal.str s) →
        parseDockerComposeFile (.arr vs)
          = .ok (vs.map fun v => match v with | JVal.str s => s | _ => []))
    ∧ parseDockerComposeFile .null = .ok [[]]
    ∧ (∀ b : Bool, parseDockerComposeFile (.bool b)
        = .error "dockerComposeFile must be a string or array of strings")
    ∧ (∀ lit : List Char, parseDockerComposeFile (.num lit)
        = .error "dockerComposeFile must be a string or array of strings")
    ∧ (∀ fs : List (List Char × JVal), parseDockerComposeFile (.obj fs)
        = .error "dockerComposeFile must be a string or array of strings")
    ∧ (∀ (vs : List JVal) (v : JVal), v ∈ vs → (∀ s, v ≠ .str s) → v ≠ .null →
        parseDockerComposeFile (.arr vs)
          = .error "dockerComposeFile must be a string or array of strings")
    ∧ (∀ (path data : String) (v : JVal) (raw : RawConfig) (dcf : JVal) (m : String),
        jparse (stripJSONC data) = some v → decodeRawConfig v = some raw →
        raw.dockerComposeFile = some dcf → parseDockerComposeFile dcf = .error m →
        ParseConfigBytes path data = .error m)
    ∧ (∀ (path data : String) (v : JVal) (raw : RawConfig) (dcf : JVal)
        (files : List (List Char)),
        jparse (stripJSONC data) = some v → decodeRawConfig v = some raw →
        raw.dockerComposeFile = some dcf → parseDockerComposeFile dcf = .ok files →
        ParseConfigBytes path data
          = .ok ⟨⟨raw.image⟩, files.map (fun f => ⟨f⟩), ⟨raw.service⟩, path⟩) := by
  have harr : ∀ ss : List (List Char), decodeGoStringList (.arr (ss.map JVal.str)) = some ss := by
    intro ss
    simp only [decodeGoStringList]
    induction ss with
    | nil => rfl
    | cons a as ih => simp [decodeGoStrings, decodeGoString, ih]
  have hbad : ∀ (vs : List JVal) (v : JVal), v ∈ vs → (∀ s, v ≠ .str s) → v ≠ .null →
      decodeGoStringList (.arr vs) = none := by
    intro vs v hmem hns hnn
    simp only [decodeGoStringList]
    induction vs with
    | nil => simp at hmem
    | cons a as ih =>
      rcases List.mem_cons.mp hmem with rfl | hmem2
      · have ha : decodeGoString v = none := by
          cases v with
          | str s => exact absurd rfl (hns s)
          | null => exact absurd rfl hnn
          | bool b => rfl
          | num lit => rfl
          | arr es => rfl
          | obj fs => rfl
        simp [decodeGoStrings, ha]
      · cases ha : decodeGoString a with
        | none => simp [decodeGoStrings, ha]
        | some s => simp [decodeGoStrings, ha, ih hmem2]
  have hmix : ∀ vs : List JVal, (∀ v ∈ vs, v = JVal.null ∨ ∃ s, v = JVal.str s) →
      decodeGoStrings vs
        = some (vs.map fun v => match v with | JVal.str s => s | _ => []) := by
    intro vs
    induction vs with
    | nil => intro _; rfl
    | cons a as ih =>
      intro hvs
      have has : ∀ v ∈ as, v = JVal.null ∨ ∃ s, v = JVal.str s :=
        fun v hv => hvs v (by simp [hv])
      rcases hvs a (by simp) with rfl | ⟨s, rfl⟩
      · simp [decodeGoStrings, decodeGoString, ih has]
      · simp [decodeGoStrings, decodeGoString, ih has]
  refine ⟨fun s => rfl, fun ss => ?_, fun vs hvs => ?_, rfl, fun b => rfl, fun lit => rfl,
    fun fs => rfl, fun vs v hmem hns hnn => ?_, fun path data v raw dcf m h1 h2 h3 h4 => ?_,
    fun path data v raw dcf files h1 h2 h3 h4 => ?_⟩
  · simp [parseDockerComposeFile, decodeGoString, harr ss]
  · simp [parseDockerComposeFile, decodeGoString, decodeGoStringList, hmix vs hvs]
  · simp [parseDockerComposeFile, decodeGoString, hbad vs v hmem hns hnn]
  · simp [ParseConfigBytes, h1, h2, h3, h4]
  · simp [ParseConfigBytes, h1, h2, h3, h4]

/-- C7 witness: a boolean field value (neither string nor array nor null)
makes `ParseConfig` fail with the `dockerComposeFile` error, and an array
mixing a string with a null element decodes to the string and "". -/
theorem C7_compose_file_field_witness :
    ParseConfigBytes "/p" "\x7b\"dockerComposeFile\": true\x7d"
      = .error "dockerComposeFile must be a string or array of strings"
    ∧ parseDockerComposeFile (.arr [.str "a".data, .null]) = .ok ["a".data, []] := by
  constructor
  · exact C7_compose_file_field.2.2.2.2.2.2.2.2.1 "/p" "\x7b\"dockerComposeFile\": true\x7d"
      (.obj [("dockerComposeFile".data, .bool true)])
      ⟨[], some (.bool true), []⟩ (.bool true)
      "dockerComposeFile must be a string or array of strings"
      rfl rfl rfl rfl
  · have h := C7_compose_file_field.2.2.1 [.str "a".data, .null] ?_
    · simpa using h
    · intro v hv
      fin_cases hv
      · exact Or.inr ⟨"a".data, rfl⟩
      · exact Or.inl rfl

/-! Scanner lemmas for the relaxed-dialect round-trip (C6): how each strip
pass acts on text without comment-like sequences, and how it removes one
comment or one trailing comma. -/

def noNL (l : List Char) : Bool := l.all (fun c => c != '\n')

def noComma (l : List Char) : Bool := l.all (fun c => c != ',')

theorem pair_side2 (p q c : Char) (t : List Char)
    (h : hasPair p q (c :: t) = false) (hc : c = p) (ht : t.head? = some q) : False := by
  subst hc
  cases t with
  | nil => simp at ht
  | cons b t' =>
    rw [List.head?_cons] at ht
    injection ht with hb
    subst hb
    simp [hasPair] at h

theorem head?_append_take1 (x y : List Char) : (x ++ y.take 1).head? = (x ++ y).head? := by
  cases x with
  | cons a x' => rfl
  | nil =>
    cases y with
    | nil => rfl
    | cons c y' => rfl

theorem hasPair_cons_false (p q c : Char) (t : List Char)
    (h : hasPair p q (c :: t) = false) : hasPair p q t = false := by
  rw [hasPair, Bool.or_eq_false_iff] at h
  exact h.2

theorem hasPair_append_false (p q : Char) (x y : List Char)
    (hx : hasPair p q x = false) (hy : hasPair p q y = false)
    (hj : (x.getLast? == some p && y.head? == some q) = false) :
    hasPair p q (x ++ y) = false := by
  induction x with
  | nil => simpa using hy
  | cons a x' ih =>
    rw [List.cons_append, hasPair, Bool.or_eq_false_iff]
    rw [hasPair, Bool.or_eq_false_iff] at hx
    cases x' with
    | nil =>
      refine ⟨?_, by simpa using hy⟩
      simpa using hj
    | cons b x'' =>
      refine ⟨by simpa using hx.1, ?_⟩
      exact ih hx.2 (by simpa using hj)

theorem hasPair_append_right (p q : Char) (x y : List Char) :
    hasPair p q (x ++ p :: q :: y) = true := by
  induction x with
  | nil => simp [hasPair]
  | cons a x' ih =>
    rw [List.cons_append, hasPair, ih]
    simp

theorem stripLineAux_copy (x y : List Char) (h : hasSS (x ++ y.take 1) = false) :
    stripLineAux false (x ++ y) = x ++ stripLineAux false y := by
  induction x with
  | nil => rfl
  | cons a x' ih =>
    rw [List.cons_append] at h ⊢
    have hx' : hasSS (x' ++ y.take 1) = false := hasPair_cons_false _ _ _ _ h
    rw [stripLineAux]
    · rw [ih hx', List.cons_append]
    · intro r1 ha hr
      refine pair_side2 '/' '/' a (x' ++ y.take 1) h ha ?_
      rw [head?_append_take1, hr, List.head?_cons]

theorem stripLineAux_id (l : List Char) (h : hasSS l = false) :
    stripLineAux false l = l := by
  have h2 : hasSS (l ++ ([] : List Char).take 1) = false := by simpa using h
  have := stripLineAux_copy l [] h2
  simpa [stripLineAux] using this

theorem stripLineAux_skip (c1 y : List Char) (h : noNL c1 = true) :
    stripLineAux true (c1 ++ '\n' :: y) = '\n' :: stripLineAux false y := by
  induction c1 with
  | nil => rfl
  | cons a as ih =>
    have ha : ¬(a = '\n') := by
      simp [noNL] at h
      simpa using h.1
    rw [List.cons_append, stripLineAux]
    · exact ih (by simp_all [noNL])
    · intro h'
      exact ha h'

theorem stripBlockF_zero (l : List Char) : stripBlockF 0 l = l := by
  cases l <;> rfl

theorem stripBlockF_id (l : List Char) (h : hasSlashStar l = false) :
    ∀ fuel, stripBlockF fuel l = l := by
  induction l with
  | nil => intro fuel; cases fuel <;> rfl
  | cons a rest ih =>
    intro fuel
    cases fuel with
    | zero => rfl
    | succ f =>
      rw [stripBlockF.eq_4]
      · rw [ih (hasPair_cons_false _ _ _ _ h) f]
      · intro r1 hc hr
        exact pair_side2 '/' '*' a rest h hc (by rw [hr, List.head?_cons])

theorem stripBlockF_copy (x y : List Char) (h : hasSlashStar (x ++ y.take 1) = false) :
    ∀ fuel, stripBlockF fuel (x ++ y) = x ++ stripBlockF (fuel - x.length) y := by
  induction x with
  | nil => intro fuel; simp
  | cons a x' ih =>
    intro fuel
    rw [List.cons_append] at h ⊢
    cases fuel with
    | zero =>
      simp [stripBlockF_zero]
    | succ f =>
      rw [stripBlockF.eq_4]
      · rw [ih (hasPair_cons_false _ _ _ _ h) f, List.length_cons, Nat.succ_sub_succ,
          List.cons_append]
      · intro r1 ha hr
        refine pair_side2 '/' '*' a (x' ++ y.take 1) h ha ?_
        rw [head?_append_take1, hr, List.head?_cons]

theorem dropToClose_append (body y : List Char) (h : hasStarSlash body = false) :
    dropToClose (body ++ '*' :: '/' :: y) = y := by
  induction body with
  | nil => rfl
  | cons a b' ih =>
    rw [List.cons_append, dropToClose.eq_2]
    · exact ih (hasPair_cons_false _ _ _ _ h)
    · intro r1 hc hr
      cases b' with
      | nil =>
        rw [List.nil_append] at hr
        injection hr with h1 _
        exact absurd h1 (by decide)
      | cons c b'' =>
        rw [List.cons_append] at hr
        injection hr with h1 _
        exact pair_side2 '*' '/' a (c :: b'') h hc (by rw [List.head?_cons, h1])

/-- One block comment with safe body and a close present is removed whole
(given enough budget for the prefix), and scanning continues after it. -/
theorem stripBlockF_remove (x c2 y : List Char) (f : Nat)
    (hx : hasSlashStar (x ++ ['/']) = false)
    (hc2 : hasStarSlash c2 = false)
    (hy : hasSlashStar y = false)
    (hf : x.length + 1 ≤ f) :
    stripBlockF f (x ++ '/' :: '*' :: (c2 ++ '*' :: '/' :: y)) = x ++ y := by
  have hcopy := stripBlockF_copy x ('/' :: '*' :: (c2 ++ '*' :: '/' :: y)) (by simpa using hx) f
  rw [hcopy]
  obtain ⟨g, hg⟩ : ∃ g, f - x.length = g + 1 := by
    refine ⟨f - x.length - 1, ?_⟩
    omega
  rw [hg, stripBlockF.eq_3]
  have hclose : hasStarSlash (c2 ++ '*' :: '/' :: y) = true := hasPair_append_right '*' '/' c2 y
  rw [hclose]
  simp only [if_true, reduceIte]
  rw [dropToClose_append c2 y hc2, stripBlockF_id y hy g]

theorem and_false_left (a b : Bool) (h : a = false) : (a && b) = false := by simp [h]

theorem and_false_right (a b : Bool) (h : b = false) : (a && b) = false := by simp [h]

theorem hasPair_cons_intro (p q a : Char) (t : List Char)
    (h : hasPair p q t = false) (hj : (a == p && t.head? == some q) = false) :
    hasPair p q (a :: t) = false := by
  rw [hasPair, hj, h]
  rfl

theorem head?_append_left (x y : List Char) (a : Char) (h : x.head? = some a) :
    (x ++ y).head? = some a := by
  cases x with
  | nil => simp at h
  | cons c x' =>
    rw [List.head?_cons] at h
    rw [List.cons_append, List.head?_cons]
    exact h

theorem stripCommasF_zero (l : List Char) : stripCommasF 0 l = l := by
  cases l <;> rfl

theorem stripCommasF_copy (x y : List Char) (h : noComma x = true) :
    ∀ fuel, stripCommasF fuel (x ++ y) = x ++ stripCommasF (fuel - x.length) y := by
  induction x with
  | nil => intro fuel; simp
  | cons a x' ih =>
    intro fuel
    cases fuel with
    | zero => simp [stripCommasF_zero]
    | succ f =>
      have ha : ¬(a = ',') := by
        simp [noComma] at h
        simpa using h.1
      have hx' : noComma x' = true := by simp_all [noComma]
      rw [List.cons_append, stripCommasF.eq_4 _ _ _ (fun hc => ha hc)]
      rw [ih hx' f, List.length_cons, Nat.succ_sub_succ, List.cons_append]

theorem dropWhile_takeWhile_ws (p : Char → Bool) (ws : List Char) (b : Char) (t : List Char)
    (hws : ws.all p = true) (hb : p b = false) :
    (ws ++ b :: t).dropWhile p = b :: t ∧ (ws ++ b :: t).takeWhile p = ws := by
  induction ws with
  | nil => simp [List.dropWhile, List.takeWhile, hb]
  | cons a ws' ih =>
    simp only [List.all_cons, Bool.and_eq_true] at hws
    have h2 := ih hws.2
    simp [List.dropWhile, List.takeWhile, hws.1, h2.1, h2.2]

theorem stripCommasF_nomatch (rest : List Char) (b : Char) (r' : List Char) (f : Nat)
    (hd : rest.dropWhile isWsRE = b :: r') (hb : ¬(b = '}' ∨ b = ']')) :
    stripCommasF (f + 1) (',' :: rest) = ',' :: stripCommasF f rest := by
  rw [stripCommasF.eq_3, hd]
  simp [hb]

theorem stripCommasF_match_end (ws : List Char) (b : Char) (f : Nat)
    (hws : ws.all isWsRE = true) (hb : b = '}' ∨ b = ']') :
    stripCommasF (f + 1) (',' :: (ws ++ [b])) = ws ++ [b] := by
  have hbws : isWsRE b = false := by rcases hb with rfl | rfl <;> decide
  obtain ⟨hdrop, htake⟩ := dropWhile_takeWhile_ws isWsRE ws b [] hws hbws
  rw [stripCommasF.eq_3, hdrop]
  simp [hb, htake, stripCommasF.eq_1]

/-! The parametric file family for the round-trip: a definition file with a
line comment (body ` c1`), a block comment (body `c2`), and a trailing comma
before the closing brace, around an image value `img` and a service value
`svc`; and the same file with the two comments and the trailing comma
removed.  The groupings mirror how the scanner lemmas split the text. -/

def jwA : List Char := "\x7b\n  ".data

def jwB : List Char := "  \"image\": \"".data

def jwC : List Char := "\",\n  ".data

def jwD : List Char := "\n  \"service\": \"".data

def jwE : List Char := "\",\n\x7d".data

def jwF : List Char := "\"\n\x7d".data

/-- The portion of the commented file after the line comment's newline. -/
def jsoncY (img svc c2 : List Char) : List Char :=
  jwB ++ (img ++ (jwC ++ '/' :: '*' :: (c2 ++ '*' :: '/' :: (jwD ++ (svc ++ jwE)))))

/-- Definition-file bytes with a line comment, a block comment and a
trailing comma. -/
def jsoncFileWith (img svc c1 c2 : List Char) : List Char :=
  jwA ++ '/' :: '/' :: (' ' :: (c1 ++ '\n' :: jsoncY img svc c2))

/-- The same bytes with both comments and the trailing comma removed. -/
def jsoncFileWithout (img svc : List Char) : List Char :=
  jwA ++ '\n' :: (jwB ++ (img ++ (jwC ++ (jwD ++ (svc ++ jwF)))))

example : jsoncFileWith "golang:1.21".data "app".data "c".data " b ".data
    = "\x7b\n  // c\n  \"image\": \"golang:1.21\",\n  /* b */\n  \"service\": \"app\",\n\x7d".data := by
  decide

example : jsoncFileWithout "golang:1.21".data "app".data
    = "\x7b\n  \n  \"image\": \"golang:1.21\",\n  \n  \"service\": \"app\"\n\x7d".data := by
  decide

/-- No `//` occurs in the commented file's tail `jsoncY`. -/
theorem jsoncY_no_ss (img svc c2 : List Char)
    (himg : hasSS img = false) (hsvc : hasSS svc = false) (hc2 : hasSS c2 = false) :
    hasSS (jsoncY img svc c2) = false := by
  have t1 : hasPair '/' '/' (svc ++ jwE) = false :=
    hasPair_append_false _ _ _ _ hsvc (by decide)
      (by refine and_false_right _ _ ?_ ; decide)
  have t2 : hasPair '/' '/' (jwD ++ (svc ++ jwE)) = false :=
    hasPair_append_false _ _ _ _ (by decide) t1 (by refine and_false_left _ _ ?_ ; decide)
  have ht2head : (jwD ++ (svc ++ jwE)).head? = some '\n' :=
    head?_append_left _ _ _ (by decide)
  have t3 : hasPair '/' '/' ('/' :: (jwD ++ (svc ++ jwE))) = false :=
    hasPair_cons_intro _ _ _ _ t2 (and_false_right _ _ (by rw [ht2head]; decide))
  have t4 : hasPair '/' '/' ('*' :: '/' :: (jwD ++ (svc ++ jwE))) = false :=
    hasPair_cons_intro _ _ _ _ t3 (by refine and_false_left _ _ ?_ ; decide)
  have t5 : hasPair '/' '/' (c2 ++ '*' :: '/' :: (jwD ++ (svc ++ jwE))) = false :=
    hasPair_append_false _ _ _ _ hc2 t4
      (by refine and_false_right _ _ ?_ ; rw [List.head?_cons] ; decide)
  have t6 : hasPair '/' '/' ('*' :: (c2 ++ '*' :: '/' :: (jwD ++ (svc ++ jwE)))) = false := by
    refine hasPair_cons_intro _ _ _ _ t5 (by refine and_false_left _ _ ?_ ; decide)
  have t7 : hasPair '/' '/' ('/' :: '*' :: (c2 ++ '*' :: '/' :: (jwD ++ (svc ++ jwE)))) = false :=
    hasPair_cons_intro _ _ _ _ t6
      (by refine and_false_right _ _ ?_ ; rw [List.head?_cons] ; decide)
  have t8 : hasPair '/' '/' (jwC ++ '/' :: '*' :: (c2 ++ '*' :: '/' :: (jwD ++ (svc ++ jwE))))
      = false :=
    hasPair_append_false _ _ _ _ (by decide) t7 (by refine and_false_left _ _ ?_ ; decide)
  have t9 : hasPair '/' '/'
      (img ++ (jwC ++ '/' :: '*' :: (c2 ++ '*' :: '/' :: (jwD ++ (svc ++ jwE))))) = false := by
    refine hasPair_append_false _ _ _ _ himg t8 (and_false_right _ _ ?_)
    rw [head?_append_left jwC _ '"' (by decide)]
    decide
  exact hasPair_append_false _ _ _ _ (by decide) t9 (by refine and_false_left _ _ ?_ ; decide)

/-- No `/*` occurs in the stop-copy part of pass 2, even with a following
slash (start of the comment opener). -/
theorem jsoncX2_no_slashstar (img : List Char) (himg : hasSlashStar img = false) :
    hasSlashStar ((jwA ++ '\n' :: (jwB ++ (img ++ jwC))) ++ ['/']) = false := by
  have hre : (jwA ++ '\n' :: (jwB ++ (img ++ jwC))) ++ ['/']
      = jwA ++ '\n' :: (jwB ++ (img ++ (jwC ++ ['/']))) := by
    simp [List.append_assoc]
  rw [hre]
  have u2 : hasPair '/' '*' (img ++ (jwC ++ ['/'])) = false := by
    refine hasPair_append_false _ _ _ _ himg (by decide) ?_
    refine and_false_right _ _ ?_
    rw [head?_append_left jwC _ '"' (by decide)]
    decide
  have u3 : hasPair '/' '*' (jwB ++ (img ++ (jwC ++ ['/']))) = false :=
    hasPair_append_false _ _ _ _ (by decide) u2 (by refine and_false_left _ _ ?_ ; decide)
  have u4 : hasPair '/' '*' ('\n' :: (jwB ++ (img ++ (jwC ++ ['/'])))) = false :=
    hasPair_cons_intro _ _ _ _ u3 (by refine and_false_left _ _ ?_ ; decide)
  exact hasPair_append_false _ _ _ _ (by decide) u4 (by refine and_false_left _ _ ?_ ; decide)

/-- No `/*` occurs after the block comment's close. -/
theorem jsoncY2_no_slashstar (svc : List Char) (hsvc : hasSlashStar svc = false) :
    hasSlashStar (jwD ++ (svc ++ jwE)) = false := by
  have v1 : hasPair '/' '*' (svc ++ jwE) = false :=
    hasPair_append_false _ _ _ _ hsvc (by decide) (by refine and_false_right _ _ ?_ ; decide)
  exact hasPair_append_false _ _ _ _ (by decide) v1 (by refine and_false_left _ _ ?_ ; decide)

/-- No `//` occurs in the comment-free file. -/
theorem jsoncFileWithout_no_ss (img svc : List Char)
    (himg : hasSS img = false) (hsvc : hasSS svc = false) :
    hasSS (jsoncFileWithout img svc) = false := by
  have w1 : hasPair '/' '/' (svc ++ jwF) = false :=
    hasPair_append_false _ _ _ _ hsvc (by decide) (by refine and_false_right _ _ ?_ ; decide)
  have w2 : hasPair '/' '/' (jwD ++ (svc ++ jwF)) = false :=
    hasPair_append_false _ _ _ _ (by decide) w1 (by refine and_false_left _ _ ?_ ; decide)
  have w3 : hasPair '/' '/' (jwC ++ (jwD ++ (svc ++ jwF))) = false :=
    hasPair_append_false _ _ _ _ (by decide) w2 (by refine and_false_left _ _ ?_ ; decide)
  have w4 : hasPair '/' '/' (img ++ (jwC ++ (jwD ++ (svc ++ jwF)))) = false := by
    refine hasPair_append_false _ _ _ _ himg w3 ?_
    refine and_false_right _ _ ?_
    rw [head?_append_left jwC _ '"' (by decide)]
    decide
  have w5 : hasPair '/' '/' (jwB ++ (img ++ (jwC ++ (jwD ++ (svc ++ jwF))))) = false :=
    hasPair_append_false _ _ _ _ (by decide) w4 (by refine and_false_left _ _ ?_ ; decide)
  have w6 : hasPair '/' '/' ('\n' :: (jwB ++ (img ++ (jwC ++ (jwD ++ (svc ++ jwF)))))) = false :=
    hasPair_cons_intro _ _ _ _ w5 (by refine and_false_left _ _ ?_ ; decide)
  exact hasPair_append_false _ _ _ _ (by decide) w6 (by refine and_false_left _ _ ?_ ; decide)

/-- No `/*` occurs in the comment-free file. -/
theorem jsoncFileWithout_no_slashstar (img svc : List Char)
    (himg : hasSlashStar img = false) (hsvc : hasSlashStar svc = false) :
    hasSlashStar (jsoncFileWithout img svc) = false := by
  have w1 : hasPair '/' '*' (svc ++ jwF) = false :=
    hasPair_append_false _ _ _ _ hsvc (by decide) (by refine and_false_right _ _ ?_ ; decide)
  have w2 : hasPair '/' '*' (jwD ++ (svc ++ jwF)) = false :=
    hasPair_append_false _ _ _ _ (by decide) w1 (by refine and_false_left _ _ ?_ ; decide)
  have w3 : hasPair '/' '*' (jwC ++ (jwD ++ (svc ++ jwF))) = false :=
    hasPair_append_false _ _ _ _ (by decide) w2 (by refine and_false_left _ _ ?_ ; decide)
  have w4 : hasPair '/' '*' (img ++ (jwC ++ (jwD ++ (svc ++ jwF)))) = false := by
    refine hasPair_append_false _ _ _ _ himg w3 ?_
    refine and_false_right _ _ ?_
    rw [head?_append_left jwC _ '"' (by decide)]
    decide
  have w5 : hasPair '/' '*' (jwB ++ (img ++ (jwC ++ (jwD ++ (svc ++ jwF))))) = false :=
    hasPair_append_false _ _ _ _ (by decide) w4 (by refine and_false_left _ _ ?_ ; decide)
  have w6 : hasPair '/' '*' ('\n' :: (jwB ++ (img ++ (jwC ++ (jwD ++ (svc ++ jwF)))))) = false :=
    hasPair_cons_intro _ _ _ _ w5 (by refine and_false_left _ _ ?_ ; decide)
  exact hasPair_append_false _ _ _ _ (by decide) w6 (by refine and_false_left _ _ ?_ ; decide)

/-- Pass 1 on the commented file: the line comment (and nothing else) is
removed. -/
theorem jsoncWith_pass1 (img svc c1 c2 : List Char)
    (hc1 : noNL c1 = true)
    (himg : hasSS img = false) (hsvc : hasSS svc = false) (hc2 : hasSS c2 = false) :
    stripLineAux false (jsoncFileWith img svc c1 c2) = jwA ++ '\n' :: jsoncY img svc c2 := by
  unfold jsoncFileWith
  rw [stripLineAux_copy jwA _ ?hcond]
  case hcond =>
    rw [show ('/' :: '/' :: (' ' :: (c1 ++ '\n' :: jsoncY img svc c2))).take 1 = ['/'] from rfl]
    decide
  rw [stripLineAux.eq_4]
  rw [show (' ' :: (c1 ++ '\n' :: jsoncY img svc c2)) = (' ' :: c1) ++ '\n' :: jsoncY img svc c2
    from by simp]
  rw [stripLineAux_skip (' ' :: c1) _ (by simp [noNL] at hc1 ⊢ ; simpa using hc1)]
  rw [stripLineAux_id _ (jsoncY_no_ss img svc c2 himg hsvc hc2)]

/-- Pass 1 on the comment-free file is the identity. -/
theorem jsoncWithout_pass1 (img svc : List Char)
    (himg : hasSS img = false) (hsvc : hasSS svc = false) :
    stripLineAux false (jsoncFileWithout img svc) = jsoncFileWithout img svc :=
  stripLineAux_id _ (jsoncFileWithout_no_ss img svc himg hsvc)

/-- Pass 2 on the line-stripped commented file: the block comment (and
nothing else) is removed. -/
theorem jsoncWith_pass2 (img svc c2 : List Char)
    (himg : hasSlashStar img = false) (hsvc : hasSlashStar svc = false)
    (hc2 : hasStarSlash c2 = false) :
    stripBlock (jwA ++ '\n' :: jsoncY img svc c2)
      = (jwA ++ '\n' :: (jwB ++ (img ++ jwC))) ++ (jwD ++ (svc ++ jwE)) := by
  unfold stripBlock
  have hre : jwA ++ '\n' :: jsoncY img svc c2
      = (jwA ++ '\n' :: (jwB ++ (img ++ jwC)))
          ++ '/' :: '*' :: (c2 ++ '*' :: '/' :: (jwD ++ (svc ++ jwE))) := by
    unfold jsoncY
    simp [List.append_assoc]
  rw [hre]
  refine stripBlockF_remove _ _ _ _ (jsoncX2_no_slashstar img himg) hc2
    (jsoncY2_no_slashstar svc hsvc) ?_
  simp [List.length_append, List.length_cons]
  omega

/-- Pass 2 on the comment-free file is the identity. -/
theorem jsoncWithout_pass2 (img svc : List Char)
    (himg : hasSlashStar img = false) (hsvc : hasSlashStar svc = false) :
    stripBlock (jsoncFileWithout img svc) = jsoncFileWithout img svc :=
  stripBlockF_id _ (jsoncFileWithout_no_slashstar img svc himg hsvc) _

/-- The shared `stripJSONC` output (before trimming) of both files. -/
def jsoncP1 (img : List Char) : List Char := jwA ++ '\n' :: (jwB ++ (img ++ ['"']))

def jsoncP2 (svc : List Char) : List Char := ['\n', ' ', ' '] ++ (jwD ++ (svc ++ ['"']))

def jsoncClean (img svc : List Char) : List Char :=
  jsoncP1 img ++ ',' :: (jsoncP2 svc ++ '\n' :: '}' :: [])

theorem jsoncP1_noComma (img : List Char) (himg : noComma img = true) :
    noComma (jsoncP1 img) = true := by
  simp [jsoncP1, noComma, List.all_append] at himg ⊢
  exact ⟨by decide, by decide, himg⟩

theorem jsoncP2_noComma (svc : List Char) (hsvc : noComma svc = true) :
    noComma (jsoncP2 svc) = true := by
  simp [jsoncP2, noComma, List.all_append] at hsvc ⊢
  exact ⟨by decide, hsvc⟩

theorem jsoncP2_split (svc : List Char) (tail : List Char) :
    jsoncP2 svc ++ tail
      = ['\n', ' ', ' ', '\n', ' ', ' ']
          ++ '"' :: ("service\": \"".data ++ (svc ++ ('"' :: tail))) := by
  unfold jsoncP2
  rw [show jwD = ['\n', ' ', ' '] ++ '"' :: "service\": \"".data from by decide]
  simp [List.append_assoc]

theorem jsoncP2_dropWhile (svc : List Char) (tail : List Char) :
    (jsoncP2 svc ++ tail).dropWhile isWsRE
      = '"' :: ("service\": \"".data ++ (svc ++ ('"' :: tail))) := by
  rw [jsoncP2_split]
  exact (dropWhile_takeWhile_ws isWsRE ['\n', ' ', ' ', '\n', ' ', ' '] '"' _
    (by decide) (by decide)).1

/-- Pass 3 on the comment-stripped commented file: the trailing comma (and
nothing else) is removed. -/
theorem jsonc_pass3_with (img svc : List Char)
    (himg : noComma img = true) (hsvc : noComma svc = true) :
    stripCommas ((jwA ++ '\n' :: (jwB ++ (img ++ jwC))) ++ (jwD ++ (svc ++ jwE)))
      = jsoncClean img svc := by
  unfold stripCommas
  have hre : (jwA ++ '\n' :: (jwB ++ (img ++ jwC))) ++ (jwD ++ (svc ++ jwE))
      = jsoncP1 img ++ ',' :: (jsoncP2 svc ++ ',' :: '\n' :: '}' :: []) := by
    rw [show jwC = '"' :: ',' :: '\n' :: ' ' :: ' ' :: [] from by decide,
      show jwE = '"' :: ',' :: '\n' :: '}' :: [] from by decide]
    unfold jsoncP1 jsoncP2
    simp [List.append_assoc]
  rw [hre]
  rw [stripCommasF_copy (jsoncP1 img) _ (jsoncP1_noComma img himg)]
  have hf1 : (jsoncP1 img ++ ',' :: (jsoncP2 svc ++ ',' :: '\n' :: '}' :: [])).length
      - (jsoncP1 img).length = (jsoncP2 svc ++ ',' :: '\n' :: '}' :: []).length + 1 := by
    simp [List.length_append, List.length_cons]
  rw [hf1]
  rw [stripCommasF_nomatch _ '"' _ _ (jsoncP2_dropWhile svc (',' :: '\n' :: '}' :: []))
    (by decide)]
  rw [stripCommasF_copy (jsoncP2 svc) _ (jsoncP2_noComma svc hsvc)]
  have hf2 : (jsoncP2 svc ++ ',' :: '\n' :: '}' :: []).length - (jsoncP2 svc).length = 3 := by
    simp [List.length_append, List.length_cons]
  rw [hf2]
  rw [show (',' :: '\n' :: '}' :: [] : List Char) = ',' :: (['\n'] ++ ['}']) from rfl]
  rw [stripCommasF_match_end ['\n'] '}' 2 (by decide) (Or.inl rfl)]
  unfold jsoncClean
  simp

/-- Pass 3 on the comment-free file is the identity (its one inner comma is
followed by a quote, not a closing bracket). -/
theorem jsonc_pass3_without (img svc : List Char)
    (himg : noComma img = true) (hsvc : noComma svc = true) :
    stripCommas (jsoncFileWithout img svc) = jsoncClean img svc := by
  unfold stripCommas
  have hre : jsoncFileWithout img svc
      = jsoncP1 img ++ ',' :: (jsoncP2 svc ++ '\n' :: '}' :: []) := by
    unfold jsoncFileWithout jsoncP1 jsoncP2
    rw [show jwC = '"' :: ',' :: '\n' :: ' ' :: ' ' :: [] from by decide,
      show jwF = '"' :: '\n' :: '}' :: [] from by decide]
    simp [List.append_assoc]
  rw [hre]
  rw [stripCommasF_copy (jsoncP1 img) _ (jsoncP1_noComma img himg)]
  have hf1 : (jsoncP1 img ++ ',' :: (jsoncP2 svc ++ '\n' :: '}' :: [])).length
      - (jsoncP1 img).length = (jsoncP2 svc ++ '\n' :: '}' :: []).length + 1 := by
    simp [List.length_append, List.length_cons]
  rw [hf1]
  rw [stripCommasF_nomatch _ '"' _ _ (jsoncP2_dropWhile svc ('\n' :: '}' :: []))
    (by decide)]
  rw [stripCommasF_copy (jsoncP2 svc) _ (jsoncP2_noComma svc hsvc)]
  have hf2 : (jsoncP2 svc ++ '\n' :: '}' :: []).length - (jsoncP2 svc).length = 2 := by
    simp [List.length_append, List.length_cons]
  rw [hf2]
  rw [show ('\n' :: '}' :: [] : List Char) = ['\n', '}'] ++ [] from by simp]
  rw [stripCommasF_copy ['\n', '}'] [] (by decide)]
  unfold jsoncClean
  simp [stripCommasF_zero]

/-- Equal cleaned text gives equal parses: `ParseConfig` only looks at the
output of `stripJSONC`. -/
theorem parseConfigBytes_congr (p d1 d2 : String) (h : stripJSONC d1 = stripJSONC d2) :
    ParseConfigBytes p d1 = ParseConfigBytes p d2 := by
  unfold ParseConfigBytes
  rw [h]

/-- C6 counterexample: the round-trip fails as universally stated.  This
file's only comment is the block comment `/* see // note */`, but the purely
textual line-comment pass runs first and eats from the `//` inside that body
to the end of the line, leaving an unterminated `/*`; the cleaned text fails
to parse, while the same bytes with the comment removed parse fine — so the
two parses differ. -/
theorem C6_round_trip_counterexample :
    ParseConfigBytes "/p" "\x7b\"image\": \"a\" /* see // note */\x7d"
      = .error "failed to parse config"
    ∧ ParseConfigBytes "/p" "\x7b\"image\": \"a\" \x7d"
      = .ok ⟨"a", [], "", "/p"⟩ := ⟨rfl, rfl⟩

/-- C6 (amended): for definition files whose comment-like character pairs
occur only as the comment delimiters themselves — no `//` inside string
values or block-comment bodies, no `/*` inside string values, no early `*/`
inside the block comment, no newline inside the line comment, and no commas
inside the quoted values — a file with a line comment, a block comment and a
trailing comma before `}` parses to exactly the same definition as the same
bytes with those comments and the trailing comma removed. -/
theorem C6_round_trip :
    ∀ (path : String) (img svc c1 c2 : List Char),
      noNL c1 = true →
      hasSS c2 = false → hasStarSlash c2 = false →
      hasSS img = false → hasSlashStar img = false → noComma img = true →
      hasSS svc = false → hasSlashStar svc = false → noComma svc = true →
      ParseConfigBytes path ⟨jsoncFileWith img svc c1 c2⟩
        = ParseConfigBytes path ⟨jsoncFileWithout img svc⟩ := by
  intro path img svc c1 c2 h1 h2 h3 h4 h5 h6 h7 h8 h9
  refine parseConfigBytes_congr path _ _ ?_
  unfold stripJSONC
  show (⟨trimSpace (stripCommas (stripBlock
      (stripLineAux false (jsoncFileWith img svc c1 c2))))⟩ : String)
    = ⟨trimSpace (stripCommas (stripBlock (stripLineAux false (jsoncFileWithout img svc))))⟩
  rw [jsoncWith_pass1 img svc c1 c2 h1 h4 h7 h2,
    jsoncWithout_pass1 img svc h4 h7,
    jsoncWith_pass2 img svc c2 h5 h8 h3,
    jsoncWithout_pass2 img svc h5 h8,
    jsonc_pass3_with img svc h6 h9,
    jsonc_pass3_without img svc h6 h9]

/-- C6 witness: a concrete commented file parses to the same (successful)
definition as its comment-free counterpart. -/
theorem C6_round_trip_witness :
    ParseConfigBytes "/p"
        ⟨jsoncFileWith "golang:1.21".data "app".data "dev box".data " multi line ".data⟩
      = ParseConfigBytes "/p" ⟨jsoncFileWithout "golang:1.21".data "app".data⟩
    ∧ ParseConfigBytes "/p" ⟨jsoncFileWithout "golang:1.21".data "app".data⟩
      = .ok ⟨"golang:1.21", [], "app", "/p"⟩ :=
  ⟨C6_round_trip "/p" "golang:1.21".data "app".data "dev box".data " multi line ".data
    (by decide) (by decide) (by decide) (by decide) (by decide) (by decide)
    (by decide) (by decide) (by decide),
   by rfl⟩

end Dcstop
